import Mathlib

set_option maxRecDepth 8000

/-!
Verification of the SMS channel core of `agent_pa`.

The development shallowly embeds the segmentation engine, Twilio provider
adapter, per-conversation work queue, session store, and channel orchestrator
(`src/src/sms-channel-service.js`, `src/src/sms-provider-twilio.js`,
`src/src/session-store.js`, `src/src/shared-chat-commands.js`,
`src/unnamed/part_007`) and proves the spec's claims about them.
JS strings are modelled as `List Char`; unset/non-positive JS numeric budgets
are modelled as `0 : Nat`.
-/

namespace AgentPA

/-- JS whitespace as matched by `\s` and `String.prototype.trim` for the
character set this repository actually handles: ASCII whitespace plus NBSP. -/
def isJsWs (c : Char) : Bool :=
  c = ' ' || c = '\t' || c = '\n' || c = '\r' ||
    c = Char.ofNat 11 || c = Char.ofNat 12 || c = Char.ofNat 160

/-- Left half of `String.prototype.trim`. -/
def trimLeft (s : List Char) : List Char := s.dropWhile isJsWs

/-- Right half of `String.prototype.trim`. -/
def trimRight (s : List Char) : List Char := (s.reverse.dropWhile isJsWs).reverse

/-- `String(value).trim()` (the `trimToString` helper of the channel service,
restricted to string inputs). -/
def trimList (s : List Char) : List Char := trimRight (trimLeft s)

/-- One `foldr` step splitting a char list at separators chosen by `p`:
the accumulator is the (always nonempty) list of chunks to the right. -/
def splitStep (p : Char → Bool) (c : Char) (acc : List (List Char)) :
    List (List Char) :=
  if p c then [] :: acc
  else
    match acc with
    | [] => [[c]]
    | w :: ws => (c :: w) :: ws

/-- All maximal runs between separator characters (runs of separators yield
empty chunks, exactly like `String.prototype.split` on a single-char class). -/
def splitChunks (p : Char → Bool) (s : List Char) : List (List Char) :=
  s.foldr (splitStep p) [[]]

/-- `value.split(/\s+/).filter(Boolean)`: splitting on one separator char at a
time yields extra empty chunks for runs, which the nonempty filter removes, so
the result agrees with splitting on whitespace runs. -/
def wordsOf (s : List Char) : List (List Char) :=
  (splitChunks isJsWs s).filter (· ≠ [])

/-- `text.split(/\n+/).map(p => p.trim()).filter(Boolean)` from
`splitTextForSmsMessages`: chunks between newline runs, trimmed, nonempty. -/
def paragraphsOf (s : List Char) : List (List Char) :=
  ((splitChunks (· = '\n') s).map trimList).filter (· ≠ [])

/-- Fuel-driven worker for `chunkWord`; `fuel = w.length` always suffices
because every step consumes at least one character (`n ≥ 1`). -/
def chunkWordAux (n : Nat) : Nat → List Char → List (List Char)
  | 0, _ => []
  | _ + 1, [] => []
  | fuel + 1, c :: rest =>
    (c :: rest).take n :: chunkWordAux n fuel ((c :: rest).drop n)

/-- The hard-slicing loop `for (let start = 0; start < word.length;
start += maxChars) push(word.slice(start, start + maxChars))`.  The `n = 0`
branch is unreachable in the source (callers guarantee `maxChars ≥ 1`); it is
given the value `[]` only for totality. -/
def chunkWord (n : Nat) (w : List Char) : List (List Char) :=
  if n = 0 then [] else chunkWordAux n w.length w

theorem chunkWordAux_fuel {n : Nat} (hn : 1 ≤ n) :
    ∀ (f1 f2 : Nat) (w : List Char), w.length ≤ f1 → w.length ≤ f2 →
      chunkWordAux n f1 w = chunkWordAux n f2 w := by
  intro f1
  induction f1 with
  | zero =>
    intro f2 w h1 _
    have hw : w = [] := List.eq_nil_of_length_eq_zero (Nat.le_zero.mp h1)
    subst hw
    cases f2 <;> rfl
  | succ f1 ih =>
    intro f2 w h1 h2
    cases w with
    | nil => cases f2 <;> rfl
    | cons c rest =>
      have hlen : (c :: rest).length = rest.length + 1 := rfl
      cases f2 with
      | zero => omega
      | succ f2 =>
        show (c :: rest).take n :: chunkWordAux n f1 ((c :: rest).drop n)
          = (c :: rest).take n :: chunkWordAux n f2 ((c :: rest).drop n)
        congr 1
        apply ih
        · rw [List.length_drop]
          omega
        · rw [List.length_drop]
          omega

/-- The defining recursion of the slicing loop. -/
theorem chunkWord_eq (n : Nat) (w : List Char) :
    chunkWord n w = if w = [] ∨ n = 0 then []
      else w.take n :: chunkWord n (w.drop n) := by
  unfold chunkWord
  by_cases hn : n = 0
  · simp [hn]
  · rw [if_neg hn]
    cases w with
    | nil => rfl
    | cons c rest =>
      rw [if_neg (by simp [hn]), if_neg hn]
      show (c :: rest).take n :: chunkWordAux n rest.length ((c :: rest).drop n)
        = (c :: rest).take n :: chunkWordAux n ((c :: rest).drop n).length
            ((c :: rest).drop n)
      congr 1
      apply chunkWordAux_fuel (by omega)
      · rw [List.length_drop]
        show (c :: rest).length - n ≤ rest.length
        have : (c :: rest).length = rest.length + 1 := rfl
        omega
      · exact le_refl _

/-- `pushMessage` from `splitTextForSmsMessages`: trim, drop if empty. -/
def pushMessage (msgs : List (List Char)) (next : List Char) :
    List (List Char) :=
  let cleaned := trimList next
  if cleaned = [] then msgs else msgs ++ [cleaned]

/-- One iteration of the `for (const word of words)` loop of
`splitParagraph`; the state is `(messages, current)`. -/
def wordStep (maxChars : Nat) (st : List (List Char) × List Char)
    (word : List Char) : List (List Char) × List Char :=
  let msgs := st.1
  let current := st.2
  if maxChars < word.length then
    let msgs := if current = [] then msgs else pushMessage msgs current
    ((chunkWord maxChars word).foldl pushMessage msgs, [])
  else
    let candidate := if current = [] then word else current ++ ' ' :: word
    if candidate.length ≤ maxChars then (msgs, candidate)
    else (pushMessage msgs current, word)

/-- `splitParagraph` from `splitTextForSmsMessages`: the shared `messages`
array is threaded through explicitly. -/
def splitParagraph (maxChars : Nat) (msgs : List (List Char))
    (paragraph : List Char) : List (List Char) :=
  let st := (wordsOf paragraph).foldl (wordStep maxChars) (msgs, [])
  if st.2 = [] then st.1 else pushMessage st.1 st.2

/-- One iteration of the `for (const paragraph of paragraphs)` loop. -/
def paragraphStep (maxChars : Nat) (msgs : List (List Char))
    (paragraph : List Char) : List (List Char) :=
  if maxChars < paragraph.length then splitParagraph maxChars msgs paragraph
  else
    match msgs.getLast? with
    | some last =>
      if last ≠ [] ∧ (last ++ '\n' :: paragraph).length ≤ maxChars then
        msgs.dropLast ++ [last ++ '\n' :: paragraph]
      else pushMessage msgs paragraph
    | none => pushMessage msgs paragraph

/-- `splitTextForSmsMessages(value, maxChars)` from
`src/src/sms-channel-service.js` (identical in `src/unnamed/part_007`).
The JS guard `!maxChars || maxChars < 1` becomes `maxChars = 0`. -/
def splitTextForSmsMessages (value : List Char) (maxChars : Nat) :
    List (List Char) :=
  let text := trimList value
  if text = [] then []
  else if maxChars = 0 ∨ text.length ≤ maxChars then [text]
  else
    let msgs := (paragraphsOf text).foldl (paragraphStep maxChars) []
    if msgs = [] then [text.take maxChars] else msgs

/-- `truncateText(value, maxChars)` from the channel service. -/
def truncateText (value : List Char) (maxChars : Nat) : List Char :=
  let text := trimList value
  if maxChars = 0 ∨ text.length ≤ maxChars then text
  else if maxChars ≤ 3 then text.take maxChars
  else text.take (maxChars - 3) ++ ['.', '.', '.']

def MIN_CHARS_FOR_SEQUENCE_BODY : Nat := 8
def MAX_SEQUENCE_RETRY_PASSES : Nat := 4

/-- `String(n)` for a natural number. -/
def natDigits (n : Nat) : List Char := (Nat.repr n).data

/-- `String(n).length`. -/
def digitsLen (n : Nat) : Nat := (Nat.repr n).length

/-- `String(count).padStart(width, "0")`. -/
def padNum (width n : Nat) : List Char :=
  List.replicate (width - (natDigits n).length) '0' ++ natDigits n

/-- The label `[i/total] ` with both counters padded to `width` digits. -/
def seqPrefix (width i total : Nat) : List Char :=
  '[' :: (padNum width i ++ '/' :: (padNum width total ++ [']', ' ']))

/-- The after-loop fallback of `withSmsSequenceLabels`: label the last
computed segmentation and hard-truncate overflowing bodies. -/
def seqLoopFallback (maxChars : Nat) (segments : List (List Char)) :
    List (List Char) :=
  let total := segments.length
  let width := digitsLen total
  segments.mapIdx fun index segment =>
    let pfx := seqPrefix width (index + 1) total
    pfx ++ truncateText segment (max 1 (maxChars - pfx.length))

/-- The `for (let pass = 0; pass < MAX_SEQUENCE_RETRY_PASSES; ...)` loop of
`withSmsSequenceLabels` (`src/unnamed/part_007`), by remaining passes. -/
def seqLoop (text : List Char) (maxChars : Nat) :
    Nat → List (List Char) → List (List Char)
  | 0, segments => seqLoopFallback maxChars segments
  | fuel + 1, segments =>
    let total := segments.length
    let width := digitsLen total
    let bodyMaxChars := maxChars - (seqPrefix width total total).length
    if bodyMaxChars < MIN_CHARS_FOR_SEQUENCE_BODY then segments
    else
      let next := splitTextForSmsMessages text bodyMaxChars
      if next.length = total then
        next.mapIdx fun index segment => seqPrefix width (index + 1) total ++ segment
      else seqLoop text maxChars fuel next

/-- `withSmsSequenceLabels(value, maxChars)` from `src/unnamed/part_007`. -/
def withSmsSequenceLabels (value : List Char) (maxChars : Nat) :
    List (List Char) :=
  let text := trimList value
  if text = [] then []
  else
    let segments := splitTextForSmsMessages text maxChars
    if segments.length ≤ 1 ∨ maxChars = 0 then segments
    else seqLoop text maxChars MAX_SEQUENCE_RETRY_PASSES segments

/-- Concatenate chunks with a separator in between (`Array.prototype.join`). -/
def joinWith (sep : List Char) : List (List Char) → List Char
  | [] => []
  | [x] => x
  | x :: y :: t => x ++ sep ++ joinWith sep (y :: t)

/-- Joining segments with single spaces (used to state word preservation). -/
def joinWithSpaces (segs : List (List Char)) : List Char :=
  joinWith [' '] segs

/-- The concatenation of the words of each chunk, in order. -/
def wordsFlat (msgs : List (List Char)) : List (List Char) :=
  (msgs.map wordsOf).flatten

/-- Every segment of `r` carries its ordinal label: the `i`-th segment (from
zero) starts with `[i+1/N] ` where `N = r.length`, both counters zero-padded
to the digit width of `N`. -/
def labelShape (r : List (List Char)) : Prop :=
  ∀ i (h : i < r.length),
    ∃ body, r.get ⟨i, h⟩
      = seqPrefix (digitsLen r.length) (i + 1) r.length ++ body

/-- A `withSmsSequenceLabels` outcome that abandoned labeling: an unlabeled
segmentation of the input at some positive budget at most `maxChars`, whose
own segment count yields a label width leaving fewer than the minimum usable
body characters. -/
def abandonShape (value : List Char) (maxChars : Nat)
    (r : List (List Char)) : Prop :=
  ∃ b, 1 ≤ b ∧ b ≤ maxChars ∧ r = splitTextForSmsMessages value b ∧
    maxChars - (seqPrefix (digitsLen r.length) r.length r.length).length
      < MIN_CHARS_FOR_SEQUENCE_BODY

/-! ### Per-conversation work queue (`enqueueConversationWork`, part_007)

`conversationQueueTailByKey` maps a conversation key to the tail promise of
that key's chain.  `enqueueConversationWork(key, run)` attaches `run` behind
the current tail (a fresh resolved chain when absent), stores the new tail,
and on settlement deletes the entry if it still holds this tail (i.e. no
newer work was attached meanwhile).  The model below is the induced labelled
transition system over the event-loop scheduler: `enqueue` is one call to
`enqueueConversationWork`; `start` is the scheduler resuming a unit of work
once everything before it on the chain has settled (the chain keeps FIFO
order, and only the head can run); `finish` is that unit settling, whose
cleanup removes the map entry exactly when nothing is pending behind it. -/

/-- Work units are identified by the order of their enqueue events. -/
structure QueueState where
  /-- work enqueued for each key and not yet started, in arrival order -/
  pending : String → List Nat
  /-- the unit of work currently running for a key, if any -/
  running : String → Option Nat
  /-- finished work per key, in completion order -/
  finished : String → List Nat
  /-- whether `conversationQueueTailByKey` holds an entry for the key -/
  inMap : String → Bool
  /-- every unit of work ever enqueued per key, in arrival order -/
  arrivals : String → List Nat

/-- The empty queue: the module-level state of a fresh channel service. -/
def QueueState.init : QueueState :=
  { pending := fun _ => []
    running := fun _ => none
    finished := fun _ => []
    inMap := fun _ => false
    arrivals := fun _ => [] }

/-- One scheduler step of the per-key chain discipline. -/
inductive QueueStep : QueueState → QueueState → Prop
  /-- `enqueueConversationWork(k, w)`: attach `w` to the tail of `k`'s chain
  (creating a fresh resolved chain if none exists) and store the new tail. -/
  | enqueue (s : QueueState) (k : String) (w : Nat) :
      QueueStep s
        { pending := fun k' => if k' = k then s.pending k ++ [w] else s.pending k'
          running := s.running
          finished := s.finished
          inMap := fun k' => if k' = k then true else s.inMap k'
          arrivals := fun k' => if k' = k then s.arrivals k ++ [w] else s.arrivals k' }
  /-- the scheduler resumes the head of `k`'s chain once nothing earlier is
  still running. -/
  | start (s : QueueState) (k : String) (w : Nat) (rest : List Nat)
      (hrun : s.running k = none) (hpend : s.pending k = w :: rest) :
      QueueStep s
        { pending := fun k' => if k' = k then rest else s.pending k'
          running := fun k' => if k' = k then some w else s.running k'
          finished := s.finished
          inMap := s.inMap
          arrivals := s.arrivals }
  /-- `w` settles; the `finally` cleanup deletes `k`'s entry iff the stored
  tail is still `w`'s chain, i.e. nothing was enqueued behind it. -/
  | finish (s : QueueState) (k : String) (w : Nat)
      (hrun : s.running k = some w) :
      QueueStep s
        { pending := s.pending
          running := fun k' => if k' = k then none else s.running k'
          finished := fun k' => if k' = k then s.finished k ++ [w] else s.finished k'
          inMap := fun k' => if k' = k then decide (s.pending k ≠ []) else s.inMap k'
          arrivals := s.arrivals }

/-- States the event loop can reach from a fresh service. -/
def QueueReachable (s : QueueState) : Prop :=
  Relation.ReflTransGen QueueStep QueueState.init s

/-- The running unit of work as a (length ≤ 1) list. -/
def optList : Option Nat → List Nat
  | none => []
  | some w => [w]

/-- Per key, completed work (in completion order), then the at most one
running unit, then the pending units, is exactly the arrival order — strict
FIFO with no overlap — and the key occupies the queue map exactly while it
has in-flight work. -/
def QueueInv (s : QueueState) : Prop :=
  ∀ k, s.arrivals k
      = s.finished k ++ optList (s.running k) ++ s.pending k ∧
    (s.inMap k = true ↔ (s.pending k ≠ [] ∨ s.running k ≠ none))

/-- The state after a single `enqueueConversationWork` on a fresh service
(used to witness the queue invariant at a nontrivial reachable state). -/
def queueDemoState : QueueState :=
  { pending := fun k' => if k' = "twilio:default:to:from" then
      QueueState.init.pending "twilio:default:to:from" ++ [0]
    else QueueState.init.pending k'
    running := QueueState.init.running
    finished := QueueState.init.finished
    inMap := fun k' => if k' = "twilio:default:to:from" then true
    else QueueState.init.inMap k'
    arrivals := fun k' => if k' = "twilio:default:to:from" then
      QueueState.init.arrivals "twilio:default:to:from" ++ [0]
    else QueueState.init.arrivals k' }

/-! ### Twilio provider adapter (`src/src/sms-provider-twilio.js`)

JS objects holding form/header fields are modelled as association lists in
insertion order, each key with its (possibly multi-valued) values, exactly
the shape `flattenParams` produces; JS object keys are unique, and no code
path builds a duplicate key. -/

/-- A parsed form body or header map. -/
def Form : Type := List (String × List String)

/-- `first(form.key)`: the first value of the key, `""` when absent or
empty (`first` in the source). -/
def formFirst (form : Form) (key : String) : String :=
  match List.find? (fun kv => kv.1 = key) form with
  | some (_, v :: _) => v
  | _ => ""

/-- All values of a key (the `flattenParams` entry). -/
def formValues (form : Form) (key : String) : List String :=
  match List.find? (fun kv => kv.1 = key) form with
  | some (_, vs) => vs
  | none => []

/-- `String.prototype.trim` over `String`. -/
def strTrim (s : String) : String := String.mk (trimList s.data)

/-- `String.prototype.toLowerCase` for the character set in play. -/
def strToLower (s : String) : String := String.mk (s.data.map Char.toLower)

/-- `normalizeEndpoint`: trim, strip all whitespace, lowercase. -/
def normalizeEndpoint (s : String) : String :=
  String.mk (((trimList s.data).filter (fun c => !isJsWs c)).map Char.toLower)

/-- Insertion into an ascending list under the source's three-way comparator
`(a, b) => (a < b ? -1 : a > b ? 1 : 0)`, i.e. lexicographic string order. -/
def insertSorted (x : String) : List String → List String
  | [] => [x]
  | y :: t => if y < x then y :: insertSorted x t else x :: y :: t

/-- `Array.prototype.sort` with the source's string comparator. -/
def sortStrings (l : List String) : List String :=
  l.foldr insertSorted []

/-- `buildTwilioSignaturePayload(signatureUrl, params)`: the signature URL
followed by every `key ++ value`, keys sorted, then values sorted per key. -/
def buildTwilioSignaturePayload (signatureUrl : String) (params : Form) :
    String :=
  (sortStrings (params.map (fun kv => kv.1))).foldl
    (fun payload key =>
      (sortStrings (formValues params key)).foldl
        (fun p v => p ++ key ++ v) payload)
    signatureUrl

/-- `twilioConfig` fields read by the adapter. -/
structure TwilioConfig where
  validateSignature : Bool := false
  authToken : String := ""
  authTokensByAccountSid : List (String × String) := []
  allowedToNumbers : List String := []
  allowedFromNumbers : List String := []
  webhookBaseUrl : String := ""
  deriving DecidableEq

/-- `resolveAuthToken(accountSid)`: the per-account token when the account
sid is truthy and mapped, else the default token (`authToken || ""`). -/
def resolveAuthToken (cfg : TwilioConfig) (accountSid : String) : String :=
  if accountSid ≠ "" then
    match List.find? (fun kv => kv.1 = accountSid) cfg.authTokensByAccountSid with
    | some kv => kv.2
    | none => cfg.authToken
  else cfg.authToken

/-- Outcome of a request check (`{ok:true}` vs `{ok:false,status,error}`). -/
inductive ReqCheck where
  | ok : ReqCheck
  | reject (status : Nat) (error : String) : ReqCheck
  deriving DecidableEq

/-- `verifyRequest({headers, form, signatureUrl})`.  `computeTwilioSignature`
calls out to HMAC-SHA1/base64, kept abstract as `hmacSha1B64 : key → payload
→ signature`; `timingSafeStringEqual` decides byte equality of the two
signature strings, i.e. string equality. -/
def verifyRequest (cfg : TwilioConfig) (hmacSha1B64 : String → String → String)
    (headers form : Form) (signatureUrl : String) : ReqCheck :=
  if !cfg.validateSignature then .ok
  else
    let accountSid := strTrim (formFirst form "AccountSid")
    let authToken := resolveAuthToken cfg accountSid
    if authToken = "" then
      .reject 500
        "Twilio signature validation is enabled but no matching auth token is configured."
    else
      let providedSignature := strTrim (formFirst headers "x-twilio-signature")
      if providedSignature = "" then
        .reject 403 "Missing `x-twilio-signature` header."
      else if hmacSha1B64 authToken (buildTwilioSignaturePayload signatureUrl form)
          ≠ providedSignature then
        .reject 403 "Invalid Twilio signature."
      else .ok

/-- The canonical inbound event (`from`/`to` are Lean keywords, hence
`fromAddr`/`toAddr`). -/
structure InboundEvent where
  provider : String
  accountId : String
  messageId : String
  fromAddr : String
  toAddr : String
  text : String
  deriving DecidableEq

/-- Outcome of `parseInbound`. -/
inductive ParseResult where
  | ok (event : InboundEvent)
  | reject (status : Nat) (error : String)
  deriving DecidableEq

/-- `parseInbound(form)` of the Twilio adapter. -/
def parseInbound (form : Form) : ParseResult :=
  let fromAddr := strTrim (formFirst form "From")
  let toAddr := strTrim (formFirst form "To")
  if fromAddr = "" ∨ toAddr = "" then
    .reject 400 "Twilio payload must include both `From` and `To`."
  else
    .ok { provider := "twilio"
          accountId := strTrim (formFirst form "AccountSid")
          messageId := strTrim (formFirst form "MessageSid")
          fromAddr := fromAddr
          toAddr := toAddr
          text := strTrim (formFirst form "Body") }

/-- `isAllowedDestination(to)`: allow all when the allow-list is empty, else
membership of the normalized number. -/
def isAllowedDestination (cfg : TwilioConfig) (toAddr : String) : Bool :=
  let allowed := ((cfg.allowedToNumbers.map normalizeEndpoint).filter (· ≠ ""))
  if allowed.isEmpty then true else allowed.contains (normalizeEndpoint toAddr)

/-- `isAllowedSender(from)`. -/
def isAllowedSender (cfg : TwilioConfig) (fromAddr : String) : Bool :=
  let allowed := ((cfg.allowedFromNumbers.map normalizeEndpoint).filter (· ≠ ""))
  if allowed.isEmpty then true else allowed.contains (normalizeEndpoint fromAddr)

/-- Global single-character replacement: `String.prototype.replace` with a
one-character global pattern and a constant replacement. -/
def replaceChar (c : Char) (rep : List Char) (s : List Char) : List Char :=
  s.flatMap fun x => if x = c then rep else [x]

/-- `escapeXml`: the five sequential global replaces, `&` first. -/
def escapeXml (s : List Char) : List Char :=
  replaceChar '\'' ("&apos;".data)
    (replaceChar '"' ("&quot;".data)
      (replaceChar '>' ("&gt;".data)
        (replaceChar '<' ("&lt;".data)
          (replaceChar '&' ("&amp;".data) s))))

/-- The per-character reading of `escapeXml` (what the sequential replaces
amount to; proved equal below). -/
def escChar (c : Char) : List Char :=
  if c = '&' then "&amp;".data
  else if c = '<' then "&lt;".data
  else if c = '>' then "&gt;".data
  else if c = '"' then "&quot;".data
  else if c = '\'' then "&apos;".data
  else [c]

/-- `formatReply(texts)`: drop empty strings, wrap each rest in a
`<Message>` element inside the `<Response>` envelope; an empty list renders
the empty envelope. -/
def formatReply (texts : List (List Char)) : List Char :=
  let messages := texts.filter (fun t => t.length > 0)
  if messages = [] then
    ("<?xml version=\"1.0\" encoding=\"UTF-8\"?><Response></Response>").data
  else
    ("<?xml version=\"1.0\" encoding=\"UTF-8\"?><Response>").data
      ++ (messages.flatMap fun t =>
            ("<Message>").data ++ escapeXml t ++ ("</Message>").data)
      ++ ("</Response>").data

/-- `createSmsConversationKey({provider, accountId, to, from})`. -/
def createSmsConversationKey
    (provider accountId toAddr fromAddr : String) : String :=
  strToLower provider ++ ":"
    ++ normalizeEndpoint (if accountId = "" then "default" else accountId)
    ++ ":" ++ normalizeEndpoint toAddr
    ++ ":" ++ normalizeEndpoint fromAddr

/-! ### Shared chat commands (`src/src/shared-chat-commands.js`) -/

/-- The parse result of `parseSharedChatCommand` (`{isCommand:false}` is
`notCommand`). -/
inductive ChatCommand where
  | notCommand
  | help
  | session
  | sessionNew (title : String)
  | update (argsText : String)
  | updateStatus
  deriving DecidableEq

/-- `String.prototype.startsWith` (char-list based so that it computes
inside the kernel). -/
def strStartsWith (s pre : String) : Bool := pre.data.isPrefixOf s.data

/-- `hasCommandBoundary(value, command)`: the char after the command is
absent or whitespace. -/
def hasCommandBoundary (value command : String) : Bool :=
  match value.data.drop command.length with
  | [] => true
  | c :: _ => isJsWs c

/-- `parseSharedChatCommand(value)` for string input. -/
def parseSharedChatCommand (value : String) : ChatCommand :=
  let trimmed := strTrim value
  if trimmed = "" then .notCommand
  else if trimmed = "/help" then .help
  else if trimmed = "/session" then .session
  else if strStartsWith trimmed "/session-new"
      && hasCommandBoundary trimmed "/session-new" then
    .sessionNew (strTrim (String.mk (trimmed.data.drop "/session-new".length)))
  else if strStartsWith trimmed "/update"
      && hasCommandBoundary trimmed "/update" then
    .update (strTrim (String.mk (trimmed.data.drop "/update".length)))
  else if trimmed = "/update-status" then .updateStatus
  else .notCommand

/-- `sharedChatCommandHelpLines()`. -/
def sharedChatCommandHelpLines : List String :=
  ["/help  show chat commands",
   "/session  show current session id",
   "/session-new [title]  start a new session",
   "/update [--branch NAME] [--remote NAME] [--skip-deps] [--skip-check]  start update script",
   "/update-status  show current/last update status"]

/-- `sharedChatCommandHelpText()`. -/
def sharedChatCommandHelpText : String :=
  String.intercalate "\n" sharedChatCommandHelpLines

/-! ### Session store and backend world (`src/src/session-store.js`,
`src/src/agent-service.js`)

The channel orchestrator sees the store through `getSession`,
`upsertSession` and `listSessions`, and the backend through
`agentService.createSession` / `sendUserMessage`.  The world below is that
surface: the stored records (only the fields the SMS core reads or writes),
the backend's id counter, and call counters used to state "no backend call"
/ "zero new conversations".  Store reads and writes are total here; the
fallible collaborators are the two backend calls, whose outcomes an
environment chooses (C7 models the store's own failure behavior
separately). -/

/-- `channelBindings.sms` of a stored session record. -/
structure SmsBinding where
  provider : String := ""
  conversationKey : String := ""
  accountId : String := ""
  fromAddr : String := ""
  toAddr : String := ""
  lastInboundMessageId : String := ""
  lastInboundAt : String := ""
  lastInboundText : String := ""
  lastReplyAt : String := ""
  lastReplyText : String := ""
  deriving DecidableEq

/-- A stored session record (the fields the SMS core touches). -/
structure Session where
  id : String
  sms : Option SmsBinding := none
  deriving DecidableEq

/-- The store plus backend counters. -/
structure World where
  sessions : List Session := []
  nextId : Nat := 0
  createdCount : Nat := 0
  sendCount : Nat := 0
  deriving DecidableEq

/-- `sessionStore.getSession(id)` (successful read). -/
def getSession (w : World) (sessionId : String) : Option Session :=
  List.find? (fun s => s.id = sessionId) w.sessions

/-- `sessionStore.listSessions()`: parsed records with truthy ids (the model
keeps stored order; the source sorts by update recency, which the claims
below depend on only through binding uniqueness). -/
def listSessions (w : World) : List Session :=
  w.sessions.filter (fun s => s.id ≠ "")

/-- Arguments of `agentService.sendUserMessage` the model distinguishes. -/
structure SendArgs where
  sessionId : String
  text : String
  system : String
  channel : String
  deriving DecidableEq

/-- The abstract collaborators of the channel service: crypto, URL
resolution, the markdown normalizer `normalizeSmsText` (no claim constrains
its behavior), timestamps, and the backend's chosen outcomes —
`createSessionOutcome n = some e` means the `n`-th `createSession` call
throws `e`, and `sendUserMessageOutcome` gives each `sendUserMessage` call
its reply text or thrown error. -/
structure SvcEnv where
  hmacSha1B64 : String → String → String := fun _ _ => ""
  resolveUrl : String → String → String := fun rel base => base ++ rel
  normalizeSmsText : String → String := fun s => strTrim s
  nowIso : String := ""
  createSessionOutcome : Nat → Option String := fun _ => none
  sendUserMessageOutcome : SendArgs → Except String String := fun _ => .ok ""

/-- The backend id for the `n`-th created conversation. -/
def mkSessionId (n : Nat) : String := "ses-" ++ Nat.repr n

/-- `agentService.createSession({title, channel})`: obtain a fresh id from
the backend, then upsert a store record for it (`agent-service.js` writes
`{id, title, createdAt, channel}`; the model tracks only `id`).  Throws when
the env says so. -/
def createSessionCall (env : SvcEnv) (w : World) :
    Except String (String × World) :=
  match env.createSessionOutcome w.nextId with
  | some e => .error e
  | none =>
    let id := mkSessionId w.nextId
    let w1 := { w with nextId := w.nextId + 1, createdCount := w.createdCount + 1 }
    let w2 :=
      if (getSession w1 id).isSome then w1
      else { w1 with sessions := w1.sessions ++ [{ id := id }] }
    .ok (id, w2)

/-- `agentService.sendUserMessage(...)`: pure backend exchange; the store is
untouched, the call is counted. -/
def sendUserMessageCall (env : SvcEnv) (w : World) (args : SendArgs) :
    Except String String × World :=
  (env.sendUserMessageOutcome args, { w with sendCount := w.sendCount + 1 })

/-- `mergeSmsBinding(sessionStore, sessionId, patch)`: read the current
record (or a fresh `{id}` skeleton), merge the patch over its sms binding,
and upsert.  Patches are update functions; both call sites either overwrite
every field or only `conversationKey`, matching the source's object spread. -/
def mergeSmsBinding (w : World) (sessionId : String)
    (patch : SmsBinding → SmsBinding) : World :=
  let current := (getSession w sessionId).getD { id := sessionId }
  let updated := { current with sms := some (patch (current.sms.getD {})) }
  if (getSession w sessionId).isSome then
    { w with sessions := w.sessions.map fun s =>
        if s.id = sessionId then updated else s }
  else { w with sessions := w.sessions ++ [updated] }

/-- Does a record carry `key` as its sms conversation key? -/
def SessionBound (s : Session) (key : String) : Bool :=
  match s.sms with
  | some b => b.conversationKey = key
  | none => false

/-! ### Channel orchestrator (`src/unnamed/part_007`) -/

/-- The `channels.sms` configuration fields the orchestrator reads; unset
strings are `""`, the unset reply-size budget is `0`. -/
structure SmsConfig where
  enabled : Bool := false
  provider : String := ""
  twilio : TwilioConfig := {}
  maxReplyChars : Nat := 0
  includeSequenceLabels : Bool := false
  fallbackReply : String := ""
  unauthorizedReply : String := ""
  defaultSystemPrompt : String := ""
  deriving DecidableEq

/-- `findSessionForConversation(conversationKey)`. -/
def findSessionForConversation (w : World) (conversationKey : String) :
    Option Session :=
  List.find? (fun s => SessionBound s conversationKey) (listSessions w)

/-- `ensureSession({conversationKey, event})`: reuse the bound session, else
create one (returns `(id, created)`').  The created session's title and
channel are not tracked. -/
def ensureSession (env : SvcEnv) (w : World) (conversationKey : String) :
    Except String (String × Bool × World) :=
  match findSessionForConversation w conversationKey with
  | some existing =>
    if existing.id ≠ "" then .ok (existing.id, false, w)
    else
      match createSessionCall env w with
      | .error e => .error e
      | .ok (id, w1) => .ok (id, true, w1)
  | none =>
    match createSessionCall env w with
    | .error e => .error e
    | .ok (id, w1) => .ok (id, true, w1)

/-- `unbindConversationKeyFromOtherSessions`: clear the binding of every
listed session with a truthy id, other than the keeper, that carries the
key. -/
def unbindConversationKeyFromOtherSessions (w : World)
    (conversationKey keepSessionId : String) : World :=
  let hits := (listSessions w).filter fun s =>
    s.id ≠ keepSessionId && SessionBound s conversationKey
  hits.foldl
    (fun w s => mergeSmsBinding w s.id
      (fun b => { b with conversationKey := "" }))
    w

/-- `buildSmsSystemPrompt` (part_007 version, with the fetch_webpage hint). -/
def buildSmsSystemPrompt (defaultPrompt : String) (event : InboundEvent)
    (maxReplyChars : Nat) : String :=
  String.intercalate "\n"
    (([strTrim defaultPrompt,
       "",
       "SMS metadata:",
       "- Provider: " ++ event.provider,
       "- From: " ++ event.fromAddr,
       "- To: " ++ event.toAddr,
       "- Account ID: "
         ++ (if event.accountId = "" then "unknown" else event.accountId),
       "- You still have access to all tools and skills available in this runtime. SMS only changes response formatting.",
       "- If a site returns JS-required, 403, or empty content, call the fetch_webpage tool before reporting access limitations.",
       "- Reply with plain text only. If needed, split across multiple SMS messages and keep each message under "
         ++ Nat.repr maxReplyChars ++ " characters."]).filter (fun s => s ≠ ""))

/-- `truncateText` over `String`. -/
def truncateStr (s : String) (maxChars : Nat) : String :=
  String.mk (truncateText s.data maxChars)

/-- `formatSmsReplyMessages(value, {maxChars, includeSequenceLabels})` from
part_007, through the env's abstract `normalizeSmsText`. -/
def formatSmsReplyMessages (env : SvcEnv) (value : String) (maxChars : Nat)
    (includeSequenceLabels : Bool) : List String :=
  let normalized := env.normalizeSmsText value
  if normalized = "" then []
  else if !includeSequenceLabels then
    (splitTextForSmsMessages normalized.data maxChars).map String.mk
  else (withSmsSequenceLabels normalized.data maxChars).map String.mk

/-- `toReplyMessages(text)` of the service closure. -/
def toReplyMessages (env : SvcEnv) (cfg : SmsConfig) (text : String) :
    List String :=
  formatSmsReplyMessages env text cfg.maxReplyChars cfg.includeSequenceLabels

/-- The precomputed fallback reply segments. -/
def fallbackReplyMessages (env : SvcEnv) (cfg : SmsConfig) : List String :=
  toReplyMessages env cfg
    (if cfg.fallbackReply = ""
     then "I hit an error processing that. Please try again shortly."
     else cfg.fallbackReply)

/-- The precomputed canned reply for disallowed senders. -/
def unauthorizedReplyMessages (env : SvcEnv) (cfg : SmsConfig) :
    List String :=
  toReplyMessages env cfg
    (if cfg.unauthorizedReply = ""
     then "This phone number is not authorized to use this SMS channel."
     else cfg.unauthorizedReply)

/-- The provider reply envelope handed back to the HTTP layer. -/
structure ReplyPayload where
  contentType : String
  body : String
  deriving DecidableEq

/-- `buildReplyPayload(messages)`. -/
def buildReplyPayload (messages : List String) : ReplyPayload :=
  { contentType := "text/xml; charset=utf-8"
    body := String.mk (formatReply (messages.map String.data)) }

/-- The webhook handler's JSON-ish result object. -/
structure WebhookResult where
  ok : Bool
  status : Nat
  error : Option String := none
  sessionId : Option String := none
  conversationKey : Option String := none
  createdSession : Bool := false
  response : Option ReplyPayload := none
  deriving DecidableEq

/-- The inbound HTTP request as the routes layer hands it over. -/
structure WebhookRequest where
  headers : Form := []
  form : Form := []
  path : String := ""
  queryString : String := ""

/-- `createTwilioSignatureUrl({webhookBaseUrl, path, queryString, headers})`;
`new URL(path+qs, base)` is the env's abstract `resolveUrl`. -/
def createTwilioSignatureUrl (env : SvcEnv) (webhookBaseUrl : String)
    (path queryString : String) (headers : Form) : String :=
  if webhookBaseUrl ≠ "" then
    env.resolveUrl (path ++ queryString) webhookBaseUrl
  else
    let forwardedProto := strTrim (formFirst headers "x-forwarded-proto")
    let forwardedHost := strTrim (formFirst headers "x-forwarded-host")
    let hostHeader := strTrim (formFirst headers "host")
    let protocol :=
      let p := strTrim (String.mk (forwardedProto.data.takeWhile (· ≠ ',')))
      if p = "" then "http" else p
    let host :=
      let h := strTrim (String.mk (forwardedHost.data.takeWhile (· ≠ ',')))
      if h = "" then (if hostHeader = "" then "localhost" else hostHeader)
      else h
    protocol ++ "://" ++ host ++ path ++ queryString

/-- `trimToString(smsConfig.provider || "twilio").toLowerCase()`. -/
def resolvedProviderName (cfg : SmsConfig) : String :=
  strToLower (strTrim (if cfg.provider = "" then "twilio" else cfg.provider))

/-- The conversation key the webhook handler derives for an inbound event. -/
def eventConversationKey (event : InboundEvent) : String :=
  createSmsConversationKey "twilio"
    (if event.accountId = "" then "default" else event.accountId)
    event.toAddr event.fromAddr

/-- The signature URL the webhook handler computes for a request. -/
def requestSignatureUrl (env : SvcEnv) (cfg : SmsConfig)
    (req : WebhookRequest) : String :=
  createTwilioSignatureUrl env cfg.twilio.webhookBaseUrl
    req.path req.queryString req.headers

/-- The work `handleInboundWebhook` enqueues on the conversation key's
serial queue: the whole `try` body.  A `.error` is an uncaught JS exception
(from `createSession` or `sendUserMessage`; store operations are total
here), carrying the world as mutated so far. -/
def queuedInboundWork (env : SvcEnv) (cfg : SmsConfig)
    (providerName : String) (event : InboundEvent)
    (conversationKey : String) (w : World) :
    Except String WebhookResult × World :=
  match parseSharedChatCommand event.text with
  | .help =>
    (.ok { ok := true, status := 200, sessionId := none
           conversationKey := some conversationKey, createdSession := false
           response := some (buildReplyPayload
             (toReplyMessages env cfg sharedChatCommandHelpText)) }, w)
  | .session =>
    let existing := findSessionForConversation w conversationKey
    let existingId :=
      match existing with
      | some s => if s.id ≠ "" then some s.id else none
      | none => none
    let sessionText :=
      match existingId with
      | some id => "Current session: " ++ id
      | none => "No active session. Use /session-new [title] to start one."
    (.ok { ok := true, status := 200, sessionId := existingId
           conversationKey := some conversationKey, createdSession := false
           response := some (buildReplyPayload
             (toReplyMessages env cfg sessionText)) }, w)
  | .sessionNew _ =>
    match createSessionCall env w with
    | .error e => (.error e, w)
    | .ok (createdId, w1) =>
      let w2 := unbindConversationKeyFromOtherSessions w1 conversationKey createdId
      let replyText := "Started new session: " ++ createdId
      let w3 := mergeSmsBinding w2 createdId fun _ =>
        { provider := "twilio"
          conversationKey := conversationKey
          accountId := event.accountId
          fromAddr := event.fromAddr
          toAddr := event.toAddr
          lastInboundMessageId := event.messageId
          lastInboundAt := env.nowIso
          lastInboundText := truncateStr event.text 500
          lastReplyAt := env.nowIso
          lastReplyText := truncateStr replyText 5000 }
      (.ok { ok := true, status := 200, sessionId := some createdId
             conversationKey := some conversationKey, createdSession := true
             response := some (buildReplyPayload
               (toReplyMessages env cfg replyText)) }, w3)
  | _ =>
    -- `/update`, `/update-status` and plain text all fall through to the
    -- normal message path (the service handles only the three commands)
    match ensureSession env w conversationKey with
    | .error e => (.error e, w)
    | .ok (sessionId, created, w1) =>
      let systemPrompt :=
        buildSmsSystemPrompt cfg.defaultSystemPrompt event cfg.maxReplyChars
      match sendUserMessageCall env w1
          { sessionId := sessionId, text := event.text
            system := systemPrompt, channel := "sms:" ++ providerName } with
      | (.error e, w2) => (.error e, w2)
      | (.ok assistantText, w2) =>
        let fallbackJoined :=
          String.intercalate "\n" (fallbackReplyMessages env cfg)
        let assistantReplyMessages := toReplyMessages env cfg
          (if assistantText = "" then fallbackJoined else assistantText)
        let assistantStored :=
          truncateStr (String.intercalate "\n" assistantReplyMessages) 5000
        let w3 := mergeSmsBinding w2 sessionId fun _ =>
          { provider := "twilio"
            conversationKey := conversationKey
            accountId := event.accountId
            fromAddr := event.fromAddr
            toAddr := event.toAddr
            lastInboundMessageId := event.messageId
            lastInboundAt := env.nowIso
            lastInboundText := truncateStr event.text 500
            lastReplyAt := env.nowIso
            lastReplyText := assistantStored }
        (.ok { ok := true, status := 200, sessionId := some sessionId
               conversationKey := some conversationKey
               createdSession := created
               response := some (buildReplyPayload assistantReplyMessages) },
          w3)

/-- `handleInboundWebhook({headers, form, path, queryString})` from
part_007.  `enqueueConversationWork` serializes calls per key (modelled by
`QueueStep` above); within a single call the queued body runs to completion,
its `catch` turning any thrown error into the fallback reply with success
status. -/
def handleInboundWebhook (env : SvcEnv) (cfg : SmsConfig)
    (req : WebhookRequest) (w : World) : WebhookResult × World :=
  let providerName := resolvedProviderName cfg
  if !cfg.enabled then
    ({ ok := false, status := 404, error := some "SMS channel is disabled." }, w)
  else if providerName ≠ "twilio" then
    ({ ok := false, status := 500
       error := some ("Unsupported SMS provider: " ++ providerName) }, w)
  else
    match parseInbound req.form with
    | .reject st er => ({ ok := false, status := st, error := some er }, w)
    | .ok event =>
      if !isAllowedDestination cfg.twilio event.toAddr then
        ({ ok := false, status := 403
           error := some "Inbound SMS destination number is not allowed." }, w)
      else if !isAllowedSender cfg.twilio event.fromAddr then
        ({ ok := true, status := 200, sessionId := none
           conversationKey := none, createdSession := false
           response := some (buildReplyPayload
             (unauthorizedReplyMessages env cfg)) }, w)
      else
        let signatureUrl := createTwilioSignatureUrl env
          cfg.twilio.webhookBaseUrl req.path req.queryString req.headers
        match verifyRequest cfg.twilio env.hmacSha1B64
            req.headers req.form signatureUrl with
        | .reject st er => ({ ok := false, status := st, error := some er }, w)
        | .ok =>
          let conversationKey := createSmsConversationKey "twilio"
            (if event.accountId = "" then "default" else event.accountId)
            event.toAddr event.fromAddr
          match queuedInboundWork env cfg providerName event conversationKey w with
          | (.ok result, w1) => (result, w1)
          | (.error _, w1) =>
            ({ ok := true, status := 200, sessionId := none
               conversationKey := some conversationKey
               createdSession := false
               response := some (buildReplyPayload
                 (fallbackReplyMessages env cfg)) }, w1)

/-- A record after `mergeSmsBinding(…, {conversationKey: ""})`: its sms
binding's conversation key is emptied. -/
def clearSession (s : Session) : Session :=
  { s with sms := some { (s.sms.getD {}) with conversationKey := "" } }

/-- Commands the SMS service does not handle inline (`/update`,
`/update-status`) and plain text all fall through to the normal message
path. -/
def fallsThroughToMessage : ChatCommand → Bool
  | .notCommand => true
  | .update _ => true
  | .updateStatus => true
  | _ => false

/-- Store wellformedness maintained by real operation: one record per id,
ids nonempty (the store keys files by id; `listSessions` drops id-less
records and `createSession` always writes a nonempty id). -/
def WorldWF (w : World) : Prop :=
  (w.sessions.map Session.id).Nodup ∧ ∀ s ∈ w.sessions, s.id ≠ ""

/-- How many stored records carry `key` as their sms conversation key. -/
def boundCount (w : World) (key : String) : Nat :=
  (w.sessions.filter (fun s => SessionBound s key)).length

/-- The C4 invariant: at most one stored record per non-empty key. -/
def AtMostOneBinding (w : World) : Prop :=
  ∀ key, key ≠ "" → boundCount w key ≤ 1

/-! ### Session store persistence (`src/src/session-store.js`, claim C7) -/

/-- The sessions directory: path ↦ raw file content, plus the stderr log. -/
structure FsState where
  files : List (String × String) := []
  log : List String := []
  deriving DecidableEq

/-- Errors surfaced by `fs.readFile`. -/
inductive FsReadError where
  | enoent
  | other (message : String)
  deriving DecidableEq

/-- The platform pieces `getSession` depends on: `JSON.parse` (`none` means
it throws `SyntaxError`, e.g. on trailing garbage after valid JSON),
injected read faults beyond "missing" (permissions and the like), and the
quarantine timestamp. -/
structure StoreEnv where
  jsonParse : String → Option Session := fun _ => none
  readFault : String → Option String := fun _ => none
  nowMs : Nat := 0

/-- `sanitizeSessionId`: replace every character outside
`[a-zA-Z0-9._-]` by `_`. -/
def sanitizeSessionId (sessionId : String) : String :=
  String.mk (sessionId.data.map fun c =>
    if ('a' ≤ c ∧ c ≤ 'z') ∨ ('A' ≤ c ∧ c ≤ 'Z') ∨ ('0' ≤ c ∧ c ≤ '9')
        ∨ c = '.' ∨ c = '_' ∨ c = '-' then c else '_')

/-- `sessionPath(sessionId)`. -/
def sessionPath (sessionsDir sessionId : String) : String :=
  sessionsDir ++ "/" ++ sanitizeSessionId sessionId ++ ".json"

/-- File content at a path. -/
def fsLookup (fs : FsState) (path : String) : Option String :=
  (List.find? (fun kv => kv.1 = path) fs.files).map (fun kv => kv.2)

/-- `fs.readFile(path, "utf8")`: an injected fault, the content, or ENOENT. -/
def fsRead (env : StoreEnv) (fs : FsState) (path : String) :
    Except FsReadError String :=
  match env.readFault path with
  | some m => .error (.other m)
  | none =>
    match fsLookup fs path with
    | some raw => .ok raw
    | none => .error .enoent

/-- The quarantine destination `filePath.invalid-<now>`. -/
def quarantineDest (filePath : String) (nowMs : Nat) : String :=
  filePath ++ ".invalid-" ++ Nat.repr nowMs

/-- `quarantineInvalidSessionFile(filePath, error)`: rename the file aside
with the distinguishing suffix and log a diagnostic; a rename on a missing
file (ENOENT) returns silently. -/
def quarantineInvalidSessionFile (env : StoreEnv) (fs : FsState)
    (filePath : String) (detail : String) : FsState :=
  match fsLookup fs filePath with
  | none => fs
  | some raw =>
    { files := (fs.files.filter (fun e => e.1 ≠ filePath))
        ++ [(quarantineDest filePath env.nowMs, raw)]
      log := fs.log ++ ["[agent-pa] warning: invalid session JSON moved to "
        ++ quarantineDest filePath env.nowMs ++ ": " ++ detail] }

/-- `getSession(sessionId)`: `null` on missing (ENOENT); on invalid JSON,
quarantine the file, log, and return `null`; any other storage error
propagates to the caller. -/
def getSessionStore (env : StoreEnv) (fs : FsState)
    (sessionsDir sessionId : String) :
    Except String (Option Session) × FsState :=
  let path := sessionPath sessionsDir sessionId
  match fsRead env fs path with
  | .ok raw =>
    match env.jsonParse raw with
    | some session => (.ok (some session), fs)
    | none =>
      (.ok none, quarantineInvalidSessionFile env fs path "SyntaxError")
  | .error .enoent => (.ok none, fs)
  | .error (.other m) => (.error m, fs)

/-! ### Chunk-splitting machinery -/

theorem splitStep_ne_nil (p : Char → Bool) (c : Char)
    (acc : List (List Char)) : splitStep p c acc ≠ [] := by
  cases acc <;> simp only [splitStep] <;> split <;> simp

theorem foldr_splitStep_ne_nil (p : Char → Bool) (a : List Char)
    (init : List (List Char)) (h : init ≠ []) :
    a.foldr (splitStep p) init ≠ [] := by
  cases a with
  | nil => exact h
  | cons c a => exact splitStep_ne_nil p c _

theorem foldr_splitStep_cons (p : Char → Bool) (a : List Char)
    (w : List Char) (t : List (List Char)) :
    a.foldr (splitStep p) (w :: t) = a.foldr (splitStep p) [w] ++ t := by
  induction a with
  | nil => simp
  | cons c a ih =>
    simp only [List.foldr_cons, ih]
    cases hx : a.foldr (splitStep p) [w] with
    | nil => exact absurd hx (foldr_splitStep_ne_nil p a [w] (by simp))
    | cons x xs =>
      by_cases hc : p c <;> simp [splitStep, hc]

theorem splitChunks_append_sep (p : Char → Bool) {c : Char}
    (hc : p c = true) (a b : List Char) :
    splitChunks p (a ++ c :: b) = splitChunks p a ++ splitChunks p b := by
  unfold splitChunks
  rw [List.foldr_append]
  simp only [List.foldr_cons]
  rw [show splitStep p c (b.foldr (splitStep p) [[]])
        = [] :: b.foldr (splitStep p) [[]] by simp [splitStep, hc]]
  exact foldr_splitStep_cons p a [] _

theorem wordsOf_nil : wordsOf [] = [] := rfl

theorem wordsOf_append_ws {c : Char} (hc : isJsWs c = true)
    (a b : List Char) : wordsOf (a ++ c :: b) = wordsOf a ++ wordsOf b := by
  unfold wordsOf
  rw [splitChunks_append_sep isJsWs hc, List.filter_append]

theorem wordsOf_cons_ws {c : Char} (hc : isJsWs c = true) (s : List Char) :
    wordsOf (c :: s) = wordsOf s := by
  simpa using wordsOf_append_ws hc [] s

theorem wordsOf_concat_ws {c : Char} (hc : isJsWs c = true) (s : List Char) :
    wordsOf (s ++ [c]) = wordsOf s := by
  simpa [wordsOf_nil] using wordsOf_append_ws hc s []

theorem wordsOf_dropWhile_ws (s : List Char) :
    wordsOf (s.dropWhile isJsWs) = wordsOf s := by
  induction s with
  | nil => rfl
  | cons c s ih =>
    by_cases hc : isJsWs c
    · rw [List.dropWhile_cons_of_pos hc, ih, wordsOf_cons_ws hc]
    · rw [List.dropWhile_cons_of_neg (by simpa using hc)]

theorem wordsOf_trimLeft (s : List Char) :
    wordsOf (trimLeft s) = wordsOf s := wordsOf_dropWhile_ws s

theorem wordsOf_trimRight (s : List Char) :
    wordsOf (trimRight s) = wordsOf s := by
  unfold trimRight
  induction s using List.reverseRecOn with
  | nil => rfl
  | append_singleton a c ih =>
    by_cases hc : isJsWs c
    · rw [show (a ++ [c]).reverse = c :: a.reverse by simp,
        List.dropWhile_cons_of_pos hc, ih, wordsOf_concat_ws hc]
    · rw [show (a ++ [c]).reverse = c :: a.reverse by simp,
        List.dropWhile_cons_of_neg (by simpa using hc)]
      simp

theorem wordsOf_trim (s : List Char) : wordsOf (trimList s) = wordsOf s := by
  unfold trimList
  rw [wordsOf_trimRight, wordsOf_trimLeft]

theorem wordsOf_joinWith_ws {c : Char} (hc : isJsWs c = true) :
    ∀ l : List (List Char),
      wordsOf (joinWith [c] l) = (l.map wordsOf).flatten
  | [] => by simp [joinWith, wordsOf_nil]
  | [x] => by simp [joinWith]
  | x :: y :: t => by
    rw [joinWith, show x ++ [c] ++ joinWith [c] (y :: t)
          = x ++ c :: joinWith [c] (y :: t) by simp,
      wordsOf_append_ws hc, wordsOf_joinWith_ws hc (y :: t)]
    simp

theorem joinWith_splitChunks (c : Char) (s : List Char) :
    joinWith [c] (splitChunks (· = c) s) = s := by
  induction s with
  | nil => rfl
  | cons a s ih =>
    unfold splitChunks at ih ⊢
    simp only [List.foldr_cons]
    cases hS : s.foldr (splitStep (· = c)) [[]] with
    | nil => exact absurd hS (foldr_splitStep_ne_nil _ _ _ (by simp))
    | cons x xs =>
      rw [hS] at ih
      by_cases ha : a = c
      · subst ha
        rw [show splitStep (· = a) a (x :: xs) = [] :: x :: xs by
          simp [splitStep]]
        rw [joinWith]
        simpa using ih
      · rw [show splitStep (· = c) a (x :: xs) = (a :: x) :: xs by
          simp [splitStep, ha]]
        cases xs with
        | nil =>
          rw [joinWith] at ih ⊢
          rw [← ih]
        | cons y t =>
          rw [joinWith] at ih ⊢
          simp only [List.cons_append]
          rw [ih]

theorem splitChunks_no_sep {p : Char → Bool} {w : List Char}
    (h : ∀ c ∈ w, p c = false) : splitChunks p w = [w] := by
  induction w with
  | nil => rfl
  | cons a w ih =>
    unfold splitChunks at ih ⊢
    simp only [List.foldr_cons]
    rw [ih (fun c hc => h c (List.mem_cons_of_mem _ hc))]
    simp [splitStep, h a (List.mem_cons_self _ _)]

theorem wordsOf_word {w : List Char} (hne : w ≠ [])
    (h : ∀ c ∈ w, isJsWs c = false) : wordsOf w = [w] := by
  unfold wordsOf
  rw [splitChunks_no_sep h]
  simp [hne]

theorem mem_splitChunks_no_sep {p : Char → Bool} {s w : List Char}
    (hw : w ∈ splitChunks p s) : ∀ c ∈ w, p c = false := by
  induction s generalizing w with
  | nil =>
    simp only [splitChunks, List.foldr_nil, List.mem_singleton] at hw
    subst hw; simp
  | cons a s ih =>
    unfold splitChunks at hw ih
    simp only [List.foldr_cons] at hw
    cases hS : s.foldr (splitStep p) [[]] with
    | nil => exact absurd hS (foldr_splitStep_ne_nil _ _ _ (by simp))
    | cons x xs =>
      rw [hS] at hw
      by_cases ha : p a
      · rw [show splitStep p a (x :: xs) = [] :: x :: xs by
          simp [splitStep, ha]] at hw
        rcases List.mem_cons.mp hw with h1 | h1
        · subst h1; simp
        · exact ih (hS ▸ h1)
      · rw [show splitStep p a (x :: xs) = (a :: x) :: xs by
          simp only [splitStep, ha]; simp [ha]] at hw
        rcases List.mem_cons.mp hw with h1 | h1
        · subst h1
          intro d hd
          rcases List.mem_cons.mp hd with h2 | h2
          · subst h2; simpa using ha
          · exact ih (hS ▸ List.mem_cons_self x xs) d h2
        · exact ih (hS ▸ List.mem_cons_of_mem _ h1)

theorem mem_wordsOf_props {s w : List Char} (hw : w ∈ wordsOf s) :
    w ≠ [] ∧ ∀ c ∈ w, isJsWs c = false := by
  unfold wordsOf at hw
  have h := List.mem_filter.mp hw
  exact ⟨by simpa using h.2, mem_splitChunks_no_sep h.1⟩

theorem dropWhile_of_no_sep {p : Char → Bool} {w : List Char}
    (h : ∀ c ∈ w, p c = false) : w.dropWhile p = w := by
  cases w with
  | nil => rfl
  | cons a w =>
    rw [List.dropWhile_cons_of_neg]
    simp [h a (List.mem_cons_self _ _)]

theorem trim_of_no_ws {w : List Char} (h : ∀ c ∈ w, isJsWs c = false) :
    trimList w = w := by
  unfold trimList trimLeft trimRight
  rw [dropWhile_of_no_sep h,
    dropWhile_of_no_sep (fun c hc => h c (List.mem_reverse.mp hc))]
  simp

theorem wordsFlat_push (msgs : List (List Char)) (s : List Char) :
    wordsFlat (pushMessage msgs s) = wordsFlat msgs ++ wordsOf s := by
  unfold pushMessage wordsFlat
  by_cases h : trimList s = []
  · have : wordsOf s = [] := by rw [← wordsOf_trim s, h, wordsOf_nil]
    simp [h, this]
  · simp [h, wordsOf_trim]

theorem wordsFlat_append (a b : List (List Char)) :
    wordsFlat (a ++ b) = wordsFlat a ++ wordsFlat b := by
  unfold wordsFlat
  rw [List.map_append, List.flatten_append]

theorem wordsFlat_foldl_push (chunks : List (List Char))
    (msgs : List (List Char)) :
    wordsFlat (chunks.foldl pushMessage msgs)
      = wordsFlat msgs ++ (chunks.map wordsOf).flatten := by
  induction chunks generalizing msgs with
  | nil => simp
  | cons c t ih =>
    rw [List.foldl_cons, ih, wordsFlat_push]
    simp

theorem wordStep_wordsFlat {maxChars : Nat}
    {st : List (List Char) × List Char} {word : List Char}
    (hne : word ≠ []) (hws : ∀ c ∈ word, isJsWs c = false)
    (hlen : word.length ≤ maxChars) :
    wordsFlat (wordStep maxChars st word).1
        ++ wordsOf (wordStep maxChars st word).2
      = wordsFlat st.1 ++ wordsOf st.2 ++ [word] := by
  obtain ⟨msgs, current⟩ := st
  unfold wordStep
  rw [if_neg (Nat.not_lt.mpr hlen)]
  by_cases hcur : current = []
  · simp only [hcur, if_true, if_pos trivial]
    rw [if_pos hlen]
    simp [wordsOf_word hne hws, wordsOf_nil]
  · simp only [if_neg hcur]
    by_cases hcand : (current ++ ' ' :: word).length ≤ maxChars
    · simp only [if_pos hcand]
      rw [wordsOf_append_ws (by decide)]
      simp [wordsOf_word hne hws]
    · simp only [if_neg hcand]
      rw [wordsFlat_push]
      simp [wordsOf_word hne hws]

theorem foldl_wordStep_wordsFlat {maxChars : Nat}
    (words : List (List Char)) (st : List (List Char) × List Char)
    (h : ∀ w ∈ words,
      w ≠ [] ∧ (∀ c ∈ w, isJsWs c = false) ∧ w.length ≤ maxChars) :
    wordsFlat (words.foldl (wordStep maxChars) st).1
        ++ wordsOf (words.foldl (wordStep maxChars) st).2
      = wordsFlat st.1 ++ wordsOf st.2 ++ words := by
  induction words generalizing st with
  | nil => simp
  | cons w t ih =>
    obtain ⟨h1, h2, h3⟩ := h w (List.mem_cons_self _ _)
    rw [List.foldl_cons, ih _ (fun x hx => h x (List.mem_cons_of_mem _ hx)),
      wordStep_wordsFlat h1 h2 h3]
    simp

theorem splitParagraph_wordsFlat {maxChars : Nat}
    {msgs : List (List Char)} {p : List Char}
    (h : ∀ w ∈ wordsOf p, w.length ≤ maxChars) :
    wordsFlat (splitParagraph maxChars msgs p)
      = wordsFlat msgs ++ wordsOf p := by
  unfold splitParagraph
  have hw : ∀ w ∈ wordsOf p,
      w ≠ [] ∧ (∀ c ∈ w, isJsWs c = false) ∧ w.length ≤ maxChars :=
    fun w hwm =>
      ⟨(mem_wordsOf_props hwm).1, (mem_wordsOf_props hwm).2, h w hwm⟩
  have key := @foldl_wordStep_wordsFlat maxChars
    (wordsOf p) (msgs, ([] : List Char)) hw
  simp only [wordsOf_nil, List.append_nil] at key
  by_cases hc : ((wordsOf p).foldl (wordStep maxChars) (msgs, [])).2 = []
  · rw [if_pos hc]
    rw [hc, wordsOf_nil, List.append_nil] at key
    exact key
  · rw [if_neg hc, wordsFlat_push]
    exact key

theorem paragraphStep_wordsFlat {maxChars : Nat}
    {msgs : List (List Char)} {p : List Char}
    (h : ∀ w ∈ wordsOf p, w.length ≤ maxChars) :
    wordsFlat (paragraphStep maxChars msgs p)
      = wordsFlat msgs ++ wordsOf p := by
  unfold paragraphStep
  by_cases hlong : maxChars < p.length
  · rw [if_pos hlong]
    exact splitParagraph_wordsFlat h
  · rw [if_neg hlong]
    split
    · rename_i last hlast
      by_cases hcond : last ≠ [] ∧ (last ++ '\n' :: p).length ≤ maxChars
      · rw [if_pos hcond]
        have hne : msgs ≠ [] := by
          intro h0
          rw [h0] at hlast
          simp at hlast
        have hgl : msgs.getLast hne = last := by
          have := List.getLast?_eq_getLast msgs hne
          rw [this] at hlast
          exact Option.some.inj hlast
        have hmsgs : msgs.dropLast ++ [last] = msgs := by
          rw [← hgl]
          exact List.dropLast_append_getLast hne
        rw [wordsFlat_append, ← hmsgs, wordsFlat_append]
        unfold wordsFlat
        simp only [List.map_cons, List.map_nil, List.flatten_cons,
          List.flatten_nil, List.append_nil]
        rw [wordsOf_append_ws (by decide)]
        simp
      · rw [if_neg hcond]
        exact wordsFlat_push msgs p
    · exact wordsFlat_push msgs p

theorem foldl_paragraphStep_wordsFlat {maxChars : Nat}
    (paras : List (List Char)) (msgs : List (List Char))
    (h : ∀ p ∈ paras, ∀ w ∈ wordsOf p, w.length ≤ maxChars) :
    wordsFlat (paras.foldl (paragraphStep maxChars) msgs)
      = wordsFlat msgs ++ (paras.map wordsOf).flatten := by
  induction paras generalizing msgs with
  | nil => simp
  | cons p t ih =>
    rw [List.foldl_cons, ih _ (fun q hq => h q (List.mem_cons_of_mem _ hq)),
      paragraphStep_wordsFlat (h p (List.mem_cons_self _ _))]
    simp

theorem flatten_map_filter_ne_nil {f : List Char → List (List Char)}
    (hf : f [] = []) (l : List (List Char)) :
    (((l.filter (· ≠ [])).map f)).flatten = (l.map f).flatten := by
  induction l with
  | nil => rfl
  | cons x t ih =>
    by_cases hx : x = [] <;>
      simp only [ne_eq, decide_not] at ih ⊢ <;>
      simp [hx, hf, ih]

theorem paragraphsOf_wordsFlat (s : List Char) :
    ((paragraphsOf s).map wordsOf).flatten = wordsOf s := by
  unfold paragraphsOf
  rw [flatten_map_filter_ne_nil (by rfl)]
  have h1 : ((splitChunks (· = '\n') s).map trimList).map wordsOf
      = (splitChunks (· = '\n') s).map wordsOf := by
    rw [List.map_map]
    exact List.map_congr_left fun x _ => wordsOf_trim x
  rw [h1]
  conv_rhs => rw [← joinWith_splitChunks '\n' s]
  rw [wordsOf_joinWith_ws (by decide)]

theorem dropWhile_head_false {p : Char → Bool} :
    ∀ {l : List Char} {c : Char} {rest : List Char},
      l.dropWhile p = c :: rest → p c = false := by
  intro l
  induction l with
  | nil => intro c rest h; simp at h
  | cons a l ih =>
    intro c rest h
    by_cases ha : p a
    · rw [List.dropWhile_cons_of_pos ha] at h
      exact ih h
    · rw [List.dropWhile_cons_of_neg (by simpa using ha)] at h
      cases h
      simpa using ha

theorem wordsOf_cons_not_ws_ne_nil {c : Char} {s : List Char}
    (hc : isJsWs c = false) : wordsOf (c :: s) ≠ [] := by
  unfold wordsOf splitChunks
  simp only [List.foldr_cons]
  cases hS : s.foldr (splitStep isJsWs) [[]] with
  | nil => exact absurd hS (foldr_splitStep_ne_nil _ _ _ (by simp))
  | cons x xs =>
    rw [show splitStep isJsWs c (x :: xs) = (c :: x) :: xs by
      simp [splitStep, hc]]
    intro hcontra
    rw [List.filter_cons] at hcontra
    simp at hcontra

theorem wordsOf_ne_nil {s : List Char} (h : trimList s ≠ []) :
    wordsOf s ≠ [] := by
  have h1 : trimLeft s ≠ [] := by
    intro h0
    apply h
    unfold trimList
    rw [h0]
    rfl
  cases hL : trimLeft s with
  | nil => exact absurd hL h1
  | cons c rest =>
    have hc : isJsWs c = false := dropWhile_head_false hL
    rw [← wordsOf_trimLeft s, hL]
    exact wordsOf_cons_not_ws_ne_nil hc

/-! ### Per-segment length bounds -/

theorem trimList_length_le (s : List Char) :
    (trimList s).length ≤ s.length := by
  unfold trimList trimLeft trimRight
  calc ((s.dropWhile isJsWs).reverse.dropWhile isJsWs).reverse.length
      = ((s.dropWhile isJsWs).reverse.dropWhile isJsWs).length := by
        rw [List.length_reverse]
    _ ≤ (s.dropWhile isJsWs).reverse.length :=
        (List.dropWhile_suffix isJsWs).length_le
    _ = (s.dropWhile isJsWs).length := by rw [List.length_reverse]
    _ ≤ s.length := (List.dropWhile_suffix isJsWs).length_le

theorem pushMessage_bound {maxChars : Nat} {msgs : List (List Char)}
    {s : List Char} (hmsgs : ∀ m ∈ msgs, m.length ≤ maxChars)
    (hs : s.length ≤ maxChars) :
    ∀ m ∈ pushMessage msgs s, m.length ≤ maxChars := by
  unfold pushMessage
  by_cases h : trimList s = []
  · simpa [h] using hmsgs
  · intro m hm
    simp only [if_neg h, List.mem_append, List.mem_singleton] at hm
    rcases hm with hm | hm
    · exact hmsgs m hm
    · subst hm
      exact le_trans (trimList_length_le s) hs

theorem foldl_pushMessage_bound {maxChars : Nat}
    {chunks msgs : List (List Char)}
    (hmsgs : ∀ m ∈ msgs, m.length ≤ maxChars)
    (hchunks : ∀ s ∈ chunks, s.length ≤ maxChars) :
    ∀ m ∈ chunks.foldl pushMessage msgs, m.length ≤ maxChars := by
  induction chunks generalizing msgs with
  | nil => exact hmsgs
  | cons c t ih =>
    rw [List.foldl_cons]
    exact ih
      (pushMessage_bound hmsgs (hchunks c (List.mem_cons_self _ _)))
      (fun s hs => hchunks s (List.mem_cons_of_mem _ hs))

/-- All facts about hard-sliced chunks needed downstream: each chunk is
at most `n` long, nonempty, and made of characters of `w`. -/
theorem chunkWord_mem {n : Nat} (w : List Char) :
    ∀ s ∈ chunkWord n w, s.length ≤ n ∧ s ≠ [] ∧ ∀ c ∈ s, c ∈ w := by
  generalize hk : w.length = k
  induction k using Nat.strong_induction_on generalizing w with
  | _ k ih =>
    rw [chunkWord_eq]
    by_cases hcond : w = [] ∨ n = 0
    · simp [hcond]
    · rw [if_neg hcond]
      push_neg at hcond
      intro s hs
      rcases List.mem_cons.mp hs with hs | hs
      · subst hs
        refine ⟨List.length_take_le n w, ?_, ?_⟩
        · simp [List.take_eq_nil_iff, hcond.1, hcond.2]
        · exact fun c hc => List.take_subset n w hc
      · have hlt : (w.drop n).length < k := by
          rw [List.length_drop]
          subst hk
          have := List.length_pos.mpr hcond.1
          omega
        obtain ⟨h1, h2, h3⟩ := ih _ hlt (w.drop n) rfl s hs
        exact ⟨h1, h2, fun c hc => List.drop_subset n w (h3 c hc)⟩

theorem chunkWord_ne_nil {n : Nat} {w : List Char} (hw : w ≠ [])
    (hn : n ≠ 0) : chunkWord n w ≠ [] := by
  rw [chunkWord_eq]
  rw [if_neg (by simp [hw, hn])]
  simp

theorem wordStep_bound {maxChars : Nat}
    {st : List (List Char) × List Char} {word : List Char}
    (hm : ∀ m ∈ st.1, m.length ≤ maxChars) (hc : st.2.length ≤ maxChars) :
    (∀ m ∈ (wordStep maxChars st word).1, m.length ≤ maxChars) ∧
      (wordStep maxChars st word).2.length ≤ maxChars := by
  obtain ⟨msgs, current⟩ := st
  unfold wordStep
  by_cases hlong : maxChars < word.length
  · rw [if_pos hlong]
    refine ⟨?_, by simp⟩
    refine foldl_pushMessage_bound ?_
      (fun s hs => (chunkWord_mem word s hs).1)
    by_cases hcur : current = []
    · simpa [hcur] using hm
    · simp only [if_neg hcur]
      exact pushMessage_bound hm hc
  · rw [if_neg hlong]
    by_cases hcand :
        (if current = [] then word else current ++ ' ' :: word).length
          ≤ maxChars
    · rw [if_pos hcand]
      exact ⟨hm, hcand⟩
    · rw [if_neg hcand]
      exact ⟨pushMessage_bound hm hc, Nat.not_lt.mp hlong⟩

theorem foldl_wordStep_bound {maxChars : Nat} (words : List (List Char))
    (st : List (List Char) × List Char)
    (hm : ∀ m ∈ st.1, m.length ≤ maxChars) (hc : st.2.length ≤ maxChars) :
    (∀ m ∈ (words.foldl (wordStep maxChars) st).1, m.length ≤ maxChars) ∧
      (words.foldl (wordStep maxChars) st).2.length ≤ maxChars := by
  induction words generalizing st with
  | nil => exact ⟨hm, hc⟩
  | cons w t ih =>
    rw [List.foldl_cons]
    obtain ⟨h1, h2⟩ := @wordStep_bound maxChars _ w hm hc
    exact ih _ h1 h2

theorem splitParagraph_bound {maxChars : Nat} {msgs : List (List Char)}
    {p : List Char} (hm : ∀ m ∈ msgs, m.length ≤ maxChars) :
    ∀ m ∈ splitParagraph maxChars msgs p, m.length ≤ maxChars := by
  unfold splitParagraph
  obtain ⟨h1, h2⟩ :=
    @foldl_wordStep_bound maxChars (wordsOf p) (msgs, [])
      hm (by simp)
  by_cases hc : ((wordsOf p).foldl (wordStep maxChars) (msgs, [])).2 = []
  · rw [if_pos hc]
    exact h1
  · rw [if_neg hc]
    exact pushMessage_bound h1 h2

theorem paragraphStep_bound {maxChars : Nat} {msgs : List (List Char)}
    {p : List Char} (hm : ∀ m ∈ msgs, m.length ≤ maxChars) :
    ∀ m ∈ paragraphStep maxChars msgs p, m.length ≤ maxChars := by
  unfold paragraphStep
  by_cases hlong : maxChars < p.length
  · rw [if_pos hlong]
    exact splitParagraph_bound hm
  · rw [if_neg hlong]
    split
    · rename_i last hlast
      by_cases hcond : last ≠ [] ∧ (last ++ '\n' :: p).length ≤ maxChars
      · rw [if_pos hcond]
        intro m hmm
        rcases List.mem_append.mp hmm with h1 | h1
        · exact hm m (List.dropLast_subset msgs h1)
        · rw [List.mem_singleton.mp h1]
          exact hcond.2
      · rw [if_neg hcond]
        exact pushMessage_bound hm (Nat.not_lt.mp hlong)
    · exact pushMessage_bound hm (Nat.not_lt.mp hlong)

theorem foldl_paragraphStep_bound {maxChars : Nat}
    (paras : List (List Char)) (msgs : List (List Char))
    (hm : ∀ m ∈ msgs, m.length ≤ maxChars) :
    ∀ m ∈ paras.foldl (paragraphStep maxChars) msgs,
      m.length ≤ maxChars := by
  induction paras generalizing msgs with
  | nil => exact hm
  | cons p t ih =>
    rw [List.foldl_cons]
    exact ih _ (paragraphStep_bound hm)

theorem splitText_length_le {value : List Char} {maxChars : Nat}
    (hmax : 1 ≤ maxChars) :
    ∀ s ∈ splitTextForSmsMessages value maxChars,
      s.length ≤ maxChars := by
  unfold splitTextForSmsMessages
  by_cases h0 : trimList value = []
  · simp [h0]
  · rw [if_neg h0]
    by_cases h1 : maxChars = 0 ∨ (trimList value).length ≤ maxChars
    · rw [if_pos h1]
      intro s hs
      rw [List.mem_singleton.mp hs]
      rcases h1 with h1 | h1
      · omega
      · exact h1
    · rw [if_neg h1]
      by_cases h2 : (paragraphsOf (trimList value)).foldl
          (paragraphStep maxChars) [] = []
      · rw [if_pos h2]
        intro s hs
        rw [List.mem_singleton.mp hs]
        exact List.length_take_le maxChars (trimList value)
      · rw [if_neg h2]
        exact foldl_paragraphStep_bound _ [] (by simp)

/-! ### Hard-sliced chunk arithmetic -/

theorem chunkWord_flatten {n : Nat} (hn : 1 ≤ n) (w : List Char) :
    (chunkWord n w).flatten = w := by
  generalize hk : w.length = k
  induction k using Nat.strong_induction_on generalizing w with
  | _ k ih =>
    rw [chunkWord_eq]
    by_cases hw : w = []
    · simp [hw]
    · rw [if_neg (by push_neg; exact ⟨hw, by omega⟩)]
      rw [List.flatten_cons]
      have hlt : (w.drop n).length < k := by
        rw [List.length_drop]
        subst hk
        have := List.length_pos.mpr hw
        omega
      rw [ih _ hlt (w.drop n) rfl]
      exact List.take_append_drop n w

theorem chunkWord_length {n : Nat} (hn : 1 ≤ n) (w : List Char) :
    (chunkWord n w).length = (w.length + n - 1) / n := by
  generalize hk : w.length = k
  induction k using Nat.strong_induction_on generalizing w with
  | _ k ih =>
    subst hk
    rw [chunkWord_eq]
    by_cases hw : w = []
    · subst hw
      rw [if_pos (Or.inl rfl)]
      simp only [List.length_nil]
      rw [Nat.div_eq_of_lt (by omega)]
    · rw [if_neg (by push_neg; exact ⟨hw, by omega⟩), List.length_cons]
      have hpos := List.length_pos.mpr hw
      have hlt : (w.drop n).length < w.length := by
        rw [List.length_drop]
        omega
      rw [ih _ hlt (w.drop n) rfl, List.length_drop]
      have h2 : w.length + n - 1 = (w.length - 1) + n := by omega
      rw [h2, Nat.add_div_right _ (by omega)]
      rcases le_or_lt w.length n with hle | hlt2
      · have h1 : w.length - n = 0 := by omega
        rw [h1, Nat.div_eq_of_lt (by omega), Nat.div_eq_of_lt (by omega)]
      · have h1 : w.length - n + n - 1 = w.length - 1 := by omega
        rw [h1]

theorem chunkWord_nil {n : Nat} : chunkWord n [] = [] := by
  rw [chunkWord_eq]
  simp

theorem chunkWord_dropLast_length {n : Nat} (w : List Char) :
    ∀ s ∈ (chunkWord n w).dropLast, s.length = n := by
  generalize hk : w.length = k
  induction k using Nat.strong_induction_on generalizing w with
  | _ k ih =>
    rw [chunkWord_eq]
    by_cases hcond : w = [] ∨ n = 0
    · simp [hcond]
    · rw [if_neg hcond]
      push_neg at hcond
      cases hrest : chunkWord n (w.drop n) with
      | nil => simp
      | cons r t =>
        rw [List.dropLast_cons_of_ne_nil (by simp)]
        intro s hs
        rcases List.mem_cons.mp hs with hs | hs
        · subst hs
          have hdrop : w.drop n ≠ [] := by
            intro h0
            rw [h0, chunkWord_nil] at hrest
            simp at hrest
          have : n < w.length := by
            by_contra hcon
            push_neg at hcon
            exact hdrop (List.drop_eq_nil_of_le hcon)
          rw [List.length_take]
          omega
        · have hlt : (w.drop n).length < k := by
            rw [List.length_drop]
            subst hk
            have := List.length_pos.mpr hcond.1
            omega
          exact ih _ hlt (w.drop n) rfl s (by rw [hrest]; exact hs)

theorem foldl_pushMessage_clean {chunks msgs : List (List Char)}
    (h : ∀ s ∈ chunks, trimList s = s ∧ s ≠ []) :
    chunks.foldl pushMessage msgs = msgs ++ chunks := by
  induction chunks generalizing msgs with
  | nil => simp
  | cons c t ih =>
    obtain ⟨h1, h2⟩ := h c (List.mem_cons_self _ _)
    rw [List.foldl_cons,
      show pushMessage msgs c = msgs ++ [c] by simp [pushMessage, h1, h2],
      ih (fun s hs => h s (List.mem_cons_of_mem _ hs))]
    simp

/-- A single over-budget whitespace-free token is segmented by the
hard-slicing loop alone. -/
theorem splitText_single_token {w : List Char} {maxChars : Nat}
    (hne : w ≠ []) (hws : ∀ c ∈ w, isJsWs c = false)
    (hmax : 1 ≤ maxChars) (hlen : maxChars < w.length) :
    splitTextForSmsMessages w maxChars = chunkWord maxChars w := by
  have htrim : trimList w = w := trim_of_no_ws hws
  have hnl : ∀ c ∈ w, (fun c => decide (c = '\n')) c = false := by
    intro c hc
    have hwsc := hws c hc
    by_cases hc' : c = '\n'
    · subst hc'
      simp [isJsWs] at hwsc
    · simp [hc']
  have hpara : paragraphsOf w = [w] := by
    unfold paragraphsOf
    rw [splitChunks_no_sep hnl]
    simp [htrim, hne]
  have hchunks : ∀ s ∈ chunkWord maxChars w, trimList s = s ∧ s ≠ [] := by
    intro s hs
    obtain ⟨_, h2, h3⟩ := chunkWord_mem w s hs
    exact ⟨trim_of_no_ws (fun c hc => hws c (h3 c hc)), h2⟩
  unfold splitTextForSmsMessages
  simp only [htrim]
  rw [if_neg hne, if_neg (by push_neg; exact ⟨by omega, by omega⟩), hpara]
  simp only [List.foldl_cons, List.foldl_nil]
  unfold paragraphStep
  rw [if_pos hlen]
  unfold splitParagraph
  rw [wordsOf_word hne hws]
  simp only [List.foldl_cons, List.foldl_nil]
  unfold wordStep
  rw [if_pos hlen]
  simp only [if_pos rfl, if_true]
  rw [foldl_pushMessage_clean hchunks]
  simp only [List.nil_append, if_pos rfl, if_true]
  rw [if_neg (chunkWord_ne_nil hne (by omega))]

/-- Word preservation: for a positive budget and no over-budget word,
re-joining the segments with single spaces reproduces the input's words. -/
theorem splitText_words {value : List Char} {maxChars : Nat}
    (h : ∀ w ∈ wordsOf value, w.length ≤ maxChars) :
    wordsOf (joinWithSpaces (splitTextForSmsMessages value maxChars))
      = wordsOf value := by
  rw [joinWithSpaces, wordsOf_joinWith_ws (by decide)]
  show wordsFlat _ = _
  unfold splitTextForSmsMessages
  by_cases h0 : trimList value = []
  · rw [if_pos h0]
    have hv : wordsOf value = [] := by
      rw [← wordsOf_trim value, h0, wordsOf_nil]
    simp [wordsFlat, hv]
  · rw [if_neg h0]
    by_cases h1 : maxChars = 0 ∨ (trimList value).length ≤ maxChars
    · rw [if_pos h1]
      simp [wordsFlat, wordsOf_trim]
    · rw [if_neg h1]
      have hpw : ∀ p ∈ paragraphsOf (trimList value),
          ∀ w ∈ wordsOf p, w.length ≤ maxChars := by
        intro p hp w hw
        apply h
        rw [← wordsOf_trim value, ← paragraphsOf_wordsFlat (trimList value)]
        exact List.mem_flatten.mpr ⟨wordsOf p, List.mem_map_of_mem _ hp, hw⟩
      have hfold := @foldl_paragraphStep_wordsFlat maxChars
        (paragraphsOf (trimList value)) [] hpw
      rw [paragraphsOf_wordsFlat] at hfold
      rw [show wordsFlat [] = [] from rfl, List.nil_append] at hfold
      by_cases h2 : (paragraphsOf (trimList value)).foldl
          (paragraphStep maxChars) [] = []
      · exfalso
        rw [h2] at hfold
        have hnn : wordsOf value ≠ [] := wordsOf_ne_nil h0
        rw [← wordsOf_trim value, ← hfold] at hnn
        exact hnn rfl
      · rw [if_neg h2, hfold, wordsOf_trim]

/-! ### Claim C2 -/

/-- C2 (amended): for every input text and positive budget, every segment of
`splitTextForSmsMessages` has length at most `maxChars` — unconditionally,
hard-sliced over-budget words included; and, provided no whitespace-delimited
word of the input itself exceeds the budget (otherwise the hard-slicing loop
cuts words apart), joining the returned segments with single spaces and
splitting on whitespace yields exactly the whitespace-delimited words of the
input, in the original order. -/
theorem C2_segments_bounded_words_preserved {value : List Char}
    {maxChars : Nat} (hmax : 1 ≤ maxChars) :
    (∀ s ∈ splitTextForSmsMessages value maxChars, s.length ≤ maxChars) ∧
      ((∀ w ∈ wordsOf value, w.length ≤ maxChars) →
        wordsOf (joinWithSpaces (splitTextForSmsMessages value maxChars))
          = wordsOf value) :=
  ⟨splitText_length_le hmax, fun hwords => splitText_words hwords⟩

/-- C2 witness: the amended claim at `"aaaa"`, budget 3 (the bound holds even
though the word is hard-sliced) and at `"ab cd ef"`, budget 5 (all words fit,
so the space-join restores the original words). -/
theorem C2_segments_bounded_words_preserved_witness :
    ((1 ≤ 3) ∧
      (∀ s ∈ splitTextForSmsMessages ("aaaa".data) 3, s.length ≤ 3) ∧
      ((∀ w ∈ wordsOf ("aaaa".data), w.length ≤ 3) →
        wordsOf (joinWithSpaces (splitTextForSmsMessages ("aaaa".data) 3))
          = wordsOf ("aaaa".data))) ∧
    ((1 ≤ 5) ∧ (∀ w ∈ wordsOf ("ab cd ef".data), w.length ≤ 5) ∧
      wordsOf (joinWithSpaces (splitTextForSmsMessages ("ab cd ef".data) 5))
        = wordsOf ("ab cd ef".data)) :=
  ⟨⟨by decide, (C2_segments_bounded_words_preserved (by decide)).1,
      (C2_segments_bounded_words_preserved (by decide)).2⟩,
    ⟨by decide, by decide,
      (C2_segments_bounded_words_preserved (by decide)).2 (by decide)⟩⟩

/-- C2 counterexample: at input `"aaaa"` with budget 3 the claim as stated
fails: the single word is hard-sliced into `["aaa", "a"]`, so re-joining with
single spaces yields the words `["aaa", "a"]`, not the original `["aaaa"]`. -/
theorem C2_counterexample :
    ¬ ((∀ s ∈ splitTextForSmsMessages ("aaaa".data) 3, s.length ≤ 3) ∧
      wordsOf (joinWithSpaces (splitTextForSmsMessages ("aaaa".data) 3))
        = wordsOf ("aaaa".data)) := by
  decide

/-! ### Claim C9 -/

/-- C9: a single whitespace-free token longer than the positive budget is
split into exactly `⌈L / maxChars⌉ = (L + maxChars - 1) / maxChars` chunks,
in order (their concatenation is the token), each chunk of length exactly
`maxChars` except possibly the last (every chunk is at most `maxChars`). -/
theorem C9_long_token_hard_sliced {w : List Char} {maxChars : Nat}
    (hne : w ≠ []) (hws : ∀ c ∈ w, isJsWs c = false)
    (hmax : 1 ≤ maxChars) (hlen : maxChars < w.length) :
    splitTextForSmsMessages w maxChars = chunkWord maxChars w ∧
      (chunkWord maxChars w).length
        = (w.length + maxChars - 1) / maxChars ∧
      (chunkWord maxChars w).flatten = w ∧
      (∀ s ∈ (chunkWord maxChars w).dropLast, s.length = maxChars) ∧
      (∀ s ∈ chunkWord maxChars w, s.length ≤ maxChars) :=
  ⟨splitText_single_token hne hws hmax hlen,
    chunkWord_length hmax w, chunkWord_flatten hmax w,
    chunkWord_dropLast_length w, fun s hs => (chunkWord_mem w s hs).1⟩

/-- C9 witness: the claim evaluated at token `"abcdefgh"`, budget 3. -/
theorem C9_long_token_hard_sliced_witness :
    ("abcdefgh".data ≠ [] ∧ (∀ c ∈ "abcdefgh".data, isJsWs c = false) ∧
        1 ≤ 3 ∧ 3 < "abcdefgh".data.length) ∧
      (splitTextForSmsMessages ("abcdefgh".data) 3
          = chunkWord 3 ("abcdefgh".data) ∧
        (chunkWord 3 ("abcdefgh".data)).length
          = ("abcdefgh".data.length + 3 - 1) / 3 ∧
        (chunkWord 3 ("abcdefgh".data)).flatten = "abcdefgh".data ∧
        (∀ s ∈ (chunkWord 3 ("abcdefgh".data)).dropLast, s.length = 3) ∧
        (∀ s ∈ chunkWord 3 ("abcdefgh".data), s.length ≤ 3)) :=
  ⟨⟨by decide, by decide, by decide, by decide⟩,
    C9_long_token_hard_sliced (by decide) (by decide) (by decide) (by decide)⟩

/-! ### Claim C6 -/

theorem dropWhile_idem {p : Char → Bool} (l : List Char) :
    (l.dropWhile p).dropWhile p = l.dropWhile p := by
  cases h : l.dropWhile p with
  | nil => rfl
  | cons c rest =>
    rw [List.dropWhile_cons_of_neg]
    simp [dropWhile_head_false h]

theorem trimList_idem (s : List Char) :
    trimList (trimList s) = trimList s := by
  have hleft : trimLeft (trimRight (trimLeft s)) = trimRight (trimLeft s) := by
    cases htr : trimRight (trimLeft s) with
    | nil => rfl
    | cons c rest =>
      have hpre : trimRight (trimLeft s) <+: trimLeft s := by
        rw [← List.reverse_suffix]
        unfold trimRight
        simpa using List.dropWhile_suffix isJsWs
      obtain ⟨t, ht⟩ := hpre
      rw [htr] at ht
      have hc : isJsWs c = false := by
        refine @dropWhile_head_false _ s _ (rest ++ t) ?_
        rw [show s.dropWhile isJsWs = trimLeft s from rfl, ← ht]
        rfl
      unfold trimLeft
      rw [List.dropWhile_cons_of_neg]
      simp [hc]
  show trimRight (trimLeft (trimRight (trimLeft s))) = trimRight (trimLeft s)
  rw [hleft]
  unfold trimRight
  rw [List.reverse_reverse, dropWhile_idem]

theorem splitText_trim (value : List Char) (b : Nat) :
    splitTextForSmsMessages (trimList value) b
      = splitTextForSmsMessages value b := by
  unfold splitTextForSmsMessages
  rw [trimList_idem]

theorem labelShape_mapIdx (next : List (List Char))
    (g : Nat → List Char → List Char) :
    labelShape (next.mapIdx fun i seg =>
      seqPrefix (digitsLen next.length) (i + 1) next.length ++ g i seg) := by
  intro i h
  have hi : i < next.length := by simpa using h
  refine ⟨g i (next.get ⟨i, hi⟩), ?_⟩
  simp only [List.get_eq_getElem, List.length_mapIdx, List.getElem_mapIdx]

theorem seqLoop_cases (text : List Char) (maxChars : Nat) :
    ∀ (fuel : Nat) (segments : List (List Char)) (b : Nat),
      1 ≤ b → b ≤ maxChars →
      segments = splitTextForSmsMessages text b →
      abandonShape text maxChars (seqLoop text maxChars fuel segments) ∨
        labelShape (seqLoop text maxChars fuel segments) := by
  intro fuel
  induction fuel with
  | zero =>
    intro segments b _ _ _
    right
    show labelShape (seqLoopFallback maxChars segments)
    unfold seqLoopFallback
    exact labelShape_mapIdx segments fun i seg =>
      truncateText seg (max 1 (maxChars -
        (seqPrefix (digitsLen segments.length) (i + 1) segments.length).length))
  | succ fuel ih =>
    intro segments b hb hbm hseg
    show abandonShape text maxChars (seqLoop text maxChars (fuel + 1) segments) ∨
      labelShape (seqLoop text maxChars (fuel + 1) segments)
    rw [seqLoop]
    by_cases habandon : maxChars -
        (seqPrefix (digitsLen segments.length) segments.length
          segments.length).length < MIN_CHARS_FOR_SEQUENCE_BODY
    · rw [if_pos habandon]
      exact Or.inl ⟨b, hb, hbm, hseg, habandon⟩
    · rw [if_neg habandon]
      by_cases hstable : (splitTextForSmsMessages text (maxChars -
          (seqPrefix (digitsLen segments.length) segments.length
            segments.length).length)).length = segments.length
      · rw [if_pos hstable]
        right
        set next := splitTextForSmsMessages text (maxChars -
          (seqPrefix (digitsLen segments.length) segments.length
            segments.length).length) with hnext
        rw [← hstable]
        exact labelShape_mapIdx next fun _ seg => seg
      · rw [if_neg hstable]
        refine ih _ (maxChars - (seqPrefix (digitsLen segments.length)
          segments.length segments.length).length) ?_ (Nat.sub_le _ _) rfl
        simp only [MIN_CHARS_FOR_SEQUENCE_BODY] at habandon
        omega

/-- C6 (amended): when segmentation (at positive budget) yields more than
one segment, `withSmsSequenceLabels` returns either a fully labeled
segmentation — the `i`-th of `N` segments starts with `[i+1/N] `, both
counters zero-padded to the digit width of `N` — or, exactly when the budget
minus the label width for the returned segment count falls below the minimum
usable body width, labeling is abandoned and an unlabeled segmentation is
returned instead: the segmentation at the most recently attempted body
budget, which may be smaller than the original budget. -/
theorem C6_sequence_labels {value : List Char} {maxChars : Nat}
    (hmax : 1 ≤ maxChars)
    (hN : 1 < (splitTextForSmsMessages value maxChars).length) :
    abandonShape value maxChars (withSmsSequenceLabels value maxChars) ∨
      labelShape (withSmsSequenceLabels value maxChars) := by
  unfold withSmsSequenceLabels
  by_cases h0 : trimList value = []
  · exfalso
    have hempty : splitTextForSmsMessages value maxChars = [] := by
      unfold splitTextForSmsMessages
      rw [if_pos h0]
    rw [hempty] at hN
    simp at hN
  · rw [if_neg h0, splitText_trim]
    rw [if_neg (by push_neg; exact ⟨by omega, by omega⟩)]
    have := seqLoop_cases (trimList value) maxChars
      MAX_SEQUENCE_RETRY_PASSES (splitTextForSmsMessages value maxChars)
      maxChars hmax (le_refl maxChars) (splitText_trim value maxChars).symm
    rcases this with ⟨b, h1, h2, h3, h4⟩ | h
    · exact Or.inl ⟨b, h1, h2, by rw [h3, splitText_trim], h4⟩
    · exact Or.inr h

/-- C6 witness: the amended claim evaluated at the spec's fourteen-word
example with budget 24 (the labeled outcome). -/
theorem C6_sequence_labels_witness :
    (1 ≤ 24 ∧ 1 < (splitTextForSmsMessages
        ("one two three four five six seven eight nine ten eleven twelve thirteen fourteen".data)
        24).length) ∧
      (abandonShape
          ("one two three four five six seven eight nine ten eleven twelve thirteen fourteen".data)
          24
          (withSmsSequenceLabels
            ("one two three four five six seven eight nine ten eleven twelve thirteen fourteen".data)
            24) ∨
        labelShape (withSmsSequenceLabels
          ("one two three four five six seven eight nine ten eleven twelve thirteen fourteen".data)
          24)) :=
  ⟨⟨by decide, by decide⟩, C6_sequence_labels (by decide) (by decide)⟩

/-- C6 counterexample: with budget 15 and twenty four-character words, the
first pass shrinks the body budget to 9, re-segmentation yields 10 segments,
and the second pass abandons labeling (label width 8 leaves body 7 < 8) —
returning the 10-segment segmentation at budget 9, which is neither labeled
nor the original unlabeled segmentation at budget 15 (7 segments). -/
theorem C6_counterexample :
    ¬ (labelShape (withSmsSequenceLabels
          ("aaaa aaaa aaaa aaaa aaaa aaaa aaaa aaaa aaaa aaaa aaaa aaaa aaaa aaaa aaaa aaaa aaaa aaaa aaaa aaaa".data)
          15) ∨
        withSmsSequenceLabels
          ("aaaa aaaa aaaa aaaa aaaa aaaa aaaa aaaa aaaa aaaa aaaa aaaa aaaa aaaa aaaa aaaa aaaa aaaa aaaa aaaa".data)
          15
        = splitTextForSmsMessages
          ("aaaa aaaa aaaa aaaa aaaa aaaa aaaa aaaa aaaa aaaa aaaa aaaa aaaa aaaa aaaa aaaa aaaa aaaa aaaa aaaa".data)
          15) := by
  intro hcontra
  rcases hcontra with h | h
  · have h0 := h 0 (by decide)
    obtain ⟨body, hbody⟩ := h0
    have hhead := congrArg List.head? hbody
    rw [show (withSmsSequenceLabels
        ("aaaa aaaa aaaa aaaa aaaa aaaa aaaa aaaa aaaa aaaa aaaa aaaa aaaa aaaa aaaa aaaa aaaa aaaa aaaa aaaa".data)
        15).get ⟨0, by decide⟩ = "aaaa aaaa".data from by decide] at hhead
    simp [seqPrefix] at hhead
  · have : withSmsSequenceLabels
        ("aaaa aaaa aaaa aaaa aaaa aaaa aaaa aaaa aaaa aaaa aaaa aaaa aaaa aaaa aaaa aaaa aaaa aaaa aaaa aaaa".data)
        15
      ≠ splitTextForSmsMessages
        ("aaaa aaaa aaaa aaaa aaaa aaaa aaaa aaaa aaaa aaaa aaaa aaaa aaaa aaaa aaaa aaaa aaaa aaaa aaaa aaaa".data)
        15 := by decide
    exact this h

/-! ### Claim C1 -/

/-- C1: in every reachable state of the per-key chain discipline, for every
conversation key the arrival order decomposes as finished work (in completion
order), then the at most one running unit, then the pending units — so for
two units enqueued with the same key, the first-enqueued completes before the
second starts and they never overlap — and the key's entry is in the queue
map exactly while work is pending or running for it (it is removed once its
chain is empty). -/
theorem C1_queue_fifo_and_cleanup (s : QueueState)
    (hs : QueueReachable s) : QueueInv s := by
  induction hs with
  | refl =>
    intro k
    simp [QueueState.init, optList]
  | tail _ hstep ih =>
    cases hstep with
    | enqueue k w =>
      intro k'
      dsimp only
      by_cases hk : k' = k
      · subst hk
        obtain ⟨h1, _⟩ := ih k'
        constructor
        · simp only [if_pos rfl]
          rw [h1]
          simp
        · simp
      · obtain ⟨h1, h2⟩ := ih k'
        simp only [if_neg hk]
        exact ⟨h1, h2⟩
    | start k w rest hrun hpend =>
      intro k'
      dsimp only
      by_cases hk : k' = k
      · subst hk
        obtain ⟨h1, h2⟩ := ih k'
        constructor
        · simp only [if_pos rfl]
          rw [h1, hrun, hpend]
          simp [optList]
        · simp only [if_pos rfl]
          constructor
          · intro _
            right
            simp
          · intro _
            rw [h2]
            left
            rw [hpend]
            simp
      · obtain ⟨h1, h2⟩ := ih k'
        simp only [if_neg hk]
        exact ⟨h1, h2⟩
    | finish k w hrun =>
      intro k'
      dsimp only
      by_cases hk : k' = k
      · subst hk
        obtain ⟨h1, _⟩ := ih k'
        constructor
        · simp only [if_pos rfl]
          rw [h1, hrun]
          simp [optList]
        · simp only [if_pos rfl]
          simp [optList]
      · obtain ⟨h1, h2⟩ := ih k'
        simp only [if_neg hk]
        exact ⟨h1, h2⟩

/-- C1 witness: the invariant at the concrete state reached by a single
enqueue on a fresh service. -/
theorem C1_queue_fifo_and_cleanup_witness : QueueInv queueDemoState :=
  C1_queue_fifo_and_cleanup queueDemoState
    (Relation.ReflTransGen.single
      (QueueStep.enqueue QueueState.init "twilio:default:to:from" 0))

/-! ### Claim C10 -/

theorem flatMap_congr_fun {f g : Char → List Char} (h : ∀ x, f x = g x) :
    ∀ l : List Char, l.flatMap f = l.flatMap g := by
  intro l
  induction l with
  | nil => rfl
  | cons c t ih => rw [List.flatMap_cons, List.flatMap_cons, h c, ih]

theorem escChar_chain (x : Char) :
    ((if x = '&' then "&amp;".data else [x]).flatMap fun y =>
      (if y = '<' then "&lt;".data else [y]).flatMap fun z =>
        (if z = '>' then "&gt;".data else [z]).flatMap fun u =>
          (if u = '"' then "&quot;".data else [u]).flatMap fun v =>
            if v = '\'' then "&apos;".data else [v])
      = escChar x := by
  by_cases h1 : x = '&'
  · subst h1; decide
  · by_cases h2 : x = '<'
    · subst h2; decide
    · by_cases h3 : x = '>'
      · subst h3; decide
      · by_cases h4 : x = '"'
        · subst h4; decide
        · by_cases h5 : x = '\''
          · subst h5; decide
          · simp [replaceChar, escChar, h1, h2, h3, h4, h5]

theorem escapeXml_eq_flatMap (s : List Char) :
    escapeXml s = s.flatMap escChar := by
  unfold escapeXml replaceChar
  rw [List.flatMap_assoc, List.flatMap_assoc, List.flatMap_assoc,
    List.flatMap_assoc]
  exact flatMap_congr_fun escChar_chain s

theorem escapeXml_no_markup {s : List Char} {c : Char}
    (hc : c ∈ escapeXml s) :
    c ≠ '<' ∧ c ≠ '>' ∧ c ≠ '"' ∧ c ≠ '\'' := by
  rw [escapeXml_eq_flatMap] at hc
  obtain ⟨a, _, hmem⟩ := List.mem_flatMap.mp hc
  unfold escChar at hmem
  split_ifs at hmem with h1 h2 h3 h4 h5
  · exact (by decide : ∀ c ∈ ("&amp;".data : List Char),
      c ≠ '<' ∧ c ≠ '>' ∧ c ≠ '"' ∧ c ≠ '\'') c hmem
  · exact (by decide : ∀ c ∈ ("&lt;".data : List Char),
      c ≠ '<' ∧ c ≠ '>' ∧ c ≠ '"' ∧ c ≠ '\'') c hmem
  · exact (by decide : ∀ c ∈ ("&gt;".data : List Char),
      c ≠ '<' ∧ c ≠ '>' ∧ c ≠ '"' ∧ c ≠ '\'') c hmem
  · exact (by decide : ∀ c ∈ ("&quot;".data : List Char),
      c ≠ '<' ∧ c ≠ '>' ∧ c ≠ '"' ∧ c ≠ '\'') c hmem
  · exact (by decide : ∀ c ∈ ("&apos;".data : List Char),
      c ≠ '<' ∧ c ≠ '>' ∧ c ≠ '"' ∧ c ≠ '\'') c hmem
  · rw [List.mem_singleton] at hmem
    subst hmem
    exact ⟨h2, h3, h4, h5⟩

theorem count_lt_messages (M : List (List Char)) :
    (M.flatMap fun t =>
        ("<Message>").data ++ escapeXml t ++ ("</Message>").data).count '<'
      = 2 * M.length := by
  induction M with
  | nil => rfl
  | cons t ts ih =>
    rw [List.flatMap_cons, List.count_append, ih]
    have h0 : (escapeXml t).count '<' = 0 := by
      rw [List.count_eq_zero]
      intro hc
      exact (escapeXml_no_markup hc).1 rfl
    rw [List.count_append, List.count_append, h0]
    have c1 : (("<Message>").data).count '<' = 1 := by decide
    have c2 : (("</Message>").data).count '<' = 1 := by decide
    rw [c1, c2, List.length_cons]
    ring

/-- C10: `formatReply` XML-escapes each kept segment — the five sequential
replaces amount to the per-character entity map `escChar`, whose output
contains no `<`, `>`, `"` or `'` — and drops empty segments; consequently
the `<` characters of the rendered envelope are exactly those of the fixed
XML prolog and element tags (`3 + 2·(kept segments)`), so segment content
cannot introduce elements or break the envelope's well-formedness. -/
theorem C10_formatReply_escapes_and_drops :
    (∀ s : List Char, escapeXml s = s.flatMap escChar) ∧
    (∀ (s : List Char) (c : Char), c ∈ escapeXml s →
      c ≠ '<' ∧ c ≠ '>' ∧ c ≠ '"' ∧ c ≠ '\'') ∧
    (∀ texts : List (List Char),
      formatReply texts = formatReply (texts.filter (fun t => t.length > 0))) ∧
    (∀ texts : List (List Char),
      (formatReply texts).count '<'
        = 2 * (texts.filter (fun t => t.length > 0)).length + 3) := by
  refine ⟨escapeXml_eq_flatMap, fun _ _ hc => escapeXml_no_markup hc, ?_, ?_⟩
  · intro texts
    unfold formatReply
    rw [List.filter_filter]
    have : (fun (t : List Char) => decide (t.length > 0)
        && decide (t.length > 0)) = fun t => decide (t.length > 0) := by
      funext t
      rw [Bool.and_self]
    rw [this]
  · intro texts
    unfold formatReply
    by_cases h : texts.filter (fun t => t.length > 0) = []
    · rw [if_pos h, h]
      decide
    · rw [if_neg h, List.count_append, List.count_append, count_lt_messages]
      have c1 : (("<?xml version=\"1.0\" encoding=\"UTF-8\"?><Response>").data).count '<' = 2 := by
        decide
      have c2 : (("</Response>").data).count '<' = 1 := by decide
      rw [c1, c2]
      ring

/-- C10 witness: the implication component discharged at the concrete escaped
text `a<b`, with the remaining components instantiated alongside. -/
theorem C10_formatReply_escapes_and_drops_witness :
    ('a' ∈ escapeXml ("a<b".data)) ∧
      ('a' ≠ '<' ∧ 'a' ≠ '>' ∧ 'a' ≠ '"' ∧ 'a' ≠ '\'') ∧
      formatReply [("hi".data), []]
        = formatReply ([("hi".data), []].filter (fun t => t.length > 0)) ∧
      (formatReply [("a<b".data), []]).count '<' = 2 * 1 + 3 :=
  ⟨by decide,
    C10_formatReply_escapes_and_drops.2.1 ("a<b".data) 'a' (by decide),
    C10_formatReply_escapes_and_drops.2.2.1 [("hi".data), []],
    by
      have := C10_formatReply_escapes_and_drops.2.2.2 [("a<b".data), []]
      simpa using this⟩

/-! ### Claim C7 -/

/-- C7: `getSession` returns `null` without throwing when the stored file is
missing; when the stored content is structurally invalid JSON it renames the
file aside under the `.invalid-<timestamp>` suffix (the original content
preserved there), emits a diagnostic, and returns `null`; and storage errors
other than missing or corrupt propagate to the caller, untouched state. -/
theorem C7_getSession_quarantines (env : StoreEnv) (fs : FsState)
    (sessionsDir sessionId : String) :
    (env.readFault (sessionPath sessionsDir sessionId) = none →
      fsLookup fs (sessionPath sessionsDir sessionId) = none →
      getSessionStore env fs sessionsDir sessionId = (.ok none, fs)) ∧
    (∀ raw,
      env.readFault (sessionPath sessionsDir sessionId) = none →
      fsLookup fs (sessionPath sessionsDir sessionId) = some raw →
      env.jsonParse raw = none →
      fsLookup fs (quarantineDest (sessionPath sessionsDir sessionId) env.nowMs)
          = none →
      (getSessionStore env fs sessionsDir sessionId).1 = .ok none ∧
        fsLookup (getSessionStore env fs sessionsDir sessionId).2
            (sessionPath sessionsDir sessionId) = none ∧
        fsLookup (getSessionStore env fs sessionsDir sessionId).2
            (quarantineDest (sessionPath sessionsDir sessionId) env.nowMs)
          = some raw ∧
        (getSessionStore env fs sessionsDir sessionId).2.log
          = fs.log ++ ["[agent-pa] warning: invalid session JSON moved to "
              ++ quarantineDest (sessionPath sessionsDir sessionId) env.nowMs
              ++ ": " ++ "SyntaxError"]) ∧
    (∀ m,
      env.readFault (sessionPath sessionsDir sessionId) = some m →
      getSessionStore env fs sessionsDir sessionId = (.error m, fs)) := by
  refine ⟨?_, ?_, ?_⟩
  · intro hfault hmiss
    unfold getSessionStore fsRead
    simp only [hfault, hmiss]
  · intro raw hfault hfile hparse hqfree
    have hqne : quarantineDest (sessionPath sessionsDir sessionId) env.nowMs
        ≠ sessionPath sessionsDir sessionId := by
      intro h
      have hlen := congrArg String.length h
      unfold quarantineDest at hlen
      rw [String.length_append, String.length_append] at hlen
      have h9 : (".invalid-" : String).length = 9 := rfl
      rw [h9] at hlen
      omega
    have hres : getSessionStore env fs sessionsDir sessionId
        = (.ok none, quarantineInvalidSessionFile env fs
            (sessionPath sessionsDir sessionId) "SyntaxError") := by
      unfold getSessionStore fsRead
      simp only [hfault, hfile, hparse]
    have hq : quarantineInvalidSessionFile env fs
        (sessionPath sessionsDir sessionId) "SyntaxError"
        = { files := (fs.files.filter
              (fun e => e.1 ≠ sessionPath sessionsDir sessionId))
            ++ [(quarantineDest (sessionPath sessionsDir sessionId) env.nowMs,
                raw)]
            log := fs.log ++ ["[agent-pa] warning: invalid session JSON moved to "
              ++ quarantineDest (sessionPath sessionsDir sessionId) env.nowMs
              ++ ": " ++ "SyntaxError"] } := by
      unfold quarantineInvalidSessionFile
      simp only [hfile]
    rw [hres, hq]
    refine ⟨rfl, ?_, ?_, rfl⟩
    · unfold fsLookup
      rw [List.find?_append]
      have h1 : List.find?
          (fun kv => kv.1 = sessionPath sessionsDir sessionId)
          (fs.files.filter
            (fun e => e.1 ≠ sessionPath sessionsDir sessionId)) = none := by
        rw [List.find?_eq_none]
        intro kv hkv
        have := (List.mem_filter.mp hkv).2
        simpa using this
      rw [h1]
      simp [hqne]
    · unfold fsLookup
      rw [List.find?_append]
      have h1 : List.find?
          (fun kv => kv.1 = quarantineDest (sessionPath sessionsDir sessionId)
            env.nowMs)
          (fs.files.filter
            (fun e => e.1 ≠ sessionPath sessionsDir sessionId)) = none := by
        rw [List.find?_eq_none]
        intro kv hkv
        have hmem := (List.mem_filter.mp hkv).1
        intro heq
        have : fsLookup fs (quarantineDest
            (sessionPath sessionsDir sessionId) env.nowMs) ≠ none := by
          unfold fsLookup
          have : List.find? (fun kv' => kv'.1 = quarantineDest
              (sessionPath sessionsDir sessionId) env.nowMs) fs.files
              ≠ none := by
            rw [Ne, List.find?_eq_none]
            push_neg
            exact ⟨kv, hmem, by simpa using heq⟩
          cases hfind : List.find? (fun kv' => kv'.1 = quarantineDest
              (sessionPath sessionsDir sessionId) env.nowMs) fs.files with
          | none => exact absurd hfind this
          | some kv' => simp
        exact this hqfree
      rw [h1]
      simp
  · intro m hfault
    unfold getSessionStore fsRead
    simp only [hfault]

/-- C7 witness: a store holding one unparsable file and one missing id. -/
theorem C7_getSession_quarantines_witness :
    (({} : StoreEnv).readFault (sessionPath "dir" "absent") = none ∧
      fsLookup { files := [(sessionPath "dir" "bad", "{}garbage")] }
        (sessionPath "dir" "absent") = none ∧
      getSessionStore {} { files := [(sessionPath "dir" "bad", "{}garbage")] }
        "dir" "absent"
        = (.ok none, { files := [(sessionPath "dir" "bad", "{}garbage")] })) ∧
    ((getSessionStore {} { files := [(sessionPath "dir" "bad", "{}garbage")] }
        "dir" "bad").1 = .ok none ∧
      fsLookup (getSessionStore {}
          { files := [(sessionPath "dir" "bad", "{}garbage")] } "dir" "bad").2
          (sessionPath "dir" "bad") = none ∧
      fsLookup (getSessionStore {}
          { files := [(sessionPath "dir" "bad", "{}garbage")] } "dir" "bad").2
          (quarantineDest (sessionPath "dir" "bad") 0) = some "{}garbage") := by
  refine ⟨⟨rfl, by decide, ?_⟩, ?_, ?_, ?_⟩
  · exact (C7_getSession_quarantines {}
      { files := [(sessionPath "dir" "bad", "{}garbage")] } "dir" "absent").1
      rfl (by decide)
  all_goals
    have h := (C7_getSession_quarantines {}
      { files := [(sessionPath "dir" "bad", "{}garbage")] } "dir" "bad").2.1
      "{}garbage" rfl (by decide) rfl (by decide)
  · exact h.1
  · exact h.2.1
  · exact h.2.2.1

/-! ### Claims C3 and C8 -/

/-- Under passing pre-checks, the handler is the verification gate followed
by the queued body with its catch-all fallback. -/
theorem handle_reaches_queue {env : SvcEnv} {cfg : SmsConfig}
    {req : WebhookRequest} {w : World} {event : InboundEvent}
    (henabled : cfg.enabled = true)
    (hprov : resolvedProviderName cfg = "twilio")
    (hparse : parseInbound req.form = .ok event)
    (hdest : isAllowedDestination cfg.twilio event.toAddr = true)
    (hsender : isAllowedSender cfg.twilio event.fromAddr = true) :
    handleInboundWebhook env cfg req w =
      match verifyRequest cfg.twilio env.hmacSha1B64 req.headers req.form
          (requestSignatureUrl env cfg req) with
      | .reject st er => ({ ok := false, status := st, error := some er }, w)
      | .ok =>
        match queuedInboundWork env cfg "twilio" event
            (eventConversationKey event) w with
        | (.ok result, w1) => (result, w1)
        | (.error _, w1) =>
          ({ ok := true, status := 200, sessionId := none
             conversationKey := some (eventConversationKey event)
             createdSession := false
             response := some (buildReplyPayload
               (fallbackReplyMessages env cfg)) }, w1) := by
  unfold handleInboundWebhook requestSignatureUrl eventConversationKey
  simp only [henabled, hprov, hparse, hdest, hsender]
  simp

theorem verifyRequest_no_token {cfg : TwilioConfig}
    {hmac : String → String → String} {headers form : Form} {url : String}
    (hval : cfg.validateSignature = true)
    (htok : resolveAuthToken cfg (strTrim (formFirst form "AccountSid")) = "") :
    verifyRequest cfg hmac headers form url
      = .reject 500
        "Twilio signature validation is enabled but no matching auth token is configured." := by
  unfold verifyRequest
  simp [hval, htok]

theorem verifyRequest_bad_signature {cfg : TwilioConfig}
    {hmac : String → String → String} {headers form : Form} {url : String}
    (hval : cfg.validateSignature = true)
    (htok : resolveAuthToken cfg (strTrim (formFirst form "AccountSid")) ≠ "")
    (hsig : strTrim (formFirst headers "x-twilio-signature") = "" ∨
      strTrim (formFirst headers "x-twilio-signature")
        ≠ hmac (resolveAuthToken cfg (strTrim (formFirst form "AccountSid")))
            (buildTwilioSignaturePayload url form)) :
    verifyRequest cfg hmac headers form url
        = .reject 403 "Missing `x-twilio-signature` header." ∨
      verifyRequest cfg hmac headers form url
        = .reject 403 "Invalid Twilio signature." := by
  unfold verifyRequest
  by_cases hmiss : strTrim (formFirst headers "x-twilio-signature") = ""
  · left
    simp [hval, htok, hmiss]
  · right
    have hne : strTrim (formFirst headers "x-twilio-signature")
        ≠ hmac (resolveAuthToken cfg (strTrim (formFirst form "AccountSid")))
            (buildTwilioSignaturePayload url form) := by
      rcases hsig with h | h
      · exact absurd h hmiss
      · exact h
    simp [hval, htok, hmiss, Ne.symm hne]

/-- C3: with signature verification enabled (and the earlier webhook checks
passing), a request whose signature header is missing or does not match the
HMAC recomputed over the signature URL concatenated with the form parameters
sorted by key then value is answered with status 403, and a request for
which no auth token resolves (neither per-account nor default) with status
500 — in both cases before the conversation queue, so the backend is never
invoked and the world (store, id counter, call counters) is untouched. -/
theorem C3_verification_rejects_before_backend {env : SvcEnv}
    {cfg : SmsConfig} {req : WebhookRequest} {w : World}
    {event : InboundEvent}
    (henabled : cfg.enabled = true)
    (hprov : resolvedProviderName cfg = "twilio")
    (hparse : parseInbound req.form = .ok event)
    (hdest : isAllowedDestination cfg.twilio event.toAddr = true)
    (hsender : isAllowedSender cfg.twilio event.fromAddr = true)
    (hval : cfg.twilio.validateSignature = true) :
    (resolveAuthToken cfg.twilio (strTrim (formFirst req.form "AccountSid"))
        = "" →
      (handleInboundWebhook env cfg req w).1.ok = false ∧
      (handleInboundWebhook env cfg req w).1.status = 500 ∧
      (handleInboundWebhook env cfg req w).2 = w) ∧
    (resolveAuthToken cfg.twilio (strTrim (formFirst req.form "AccountSid"))
        ≠ "" →
      (strTrim (formFirst req.headers "x-twilio-signature") = "" ∨
        strTrim (formFirst req.headers "x-twilio-signature")
          ≠ env.hmacSha1B64
              (resolveAuthToken cfg.twilio
                (strTrim (formFirst req.form "AccountSid")))
              (buildTwilioSignaturePayload (requestSignatureUrl env cfg req)
                req.form)) →
      (handleInboundWebhook env cfg req w).1.ok = false ∧
      (handleInboundWebhook env cfg req w).1.status = 403 ∧
      (handleInboundWebhook env cfg req w).2 = w) := by
  rw [handle_reaches_queue henabled hprov hparse hdest hsender]
  constructor
  · intro htok
    rw [verifyRequest_no_token hval htok]
    exact ⟨rfl, rfl, rfl⟩
  · intro htok hsig
    rcases verifyRequest_bad_signature hval htok hsig with h | h <;>
      rw [h] <;> exact ⟨rfl, rfl, rfl⟩

/-- C3 witness: a missing-signature request (403 case) and a request with no
configured token (500 case), each against an otherwise passing webhook. -/
theorem C3_verification_rejects_before_backend_witness :
    ((handleInboundWebhook {}
        { enabled := true
          twilio := { validateSignature := true, authToken := "tok" } }
        { form := [("From", ["+15550001111"]), ("To", ["+15550002222"]),
                   ("Body", ["hi"])] }
        {}).1.status = 403 ∧
      (handleInboundWebhook {}
        { enabled := true
          twilio := { validateSignature := true, authToken := "tok" } }
        { form := [("From", ["+15550001111"]), ("To", ["+15550002222"]),
                   ("Body", ["hi"])] }
        {}).2 = {}) ∧
    (handleInboundWebhook {}
        { enabled := true, twilio := { validateSignature := true } }
        { form := [("From", ["+15550001111"]), ("To", ["+15550002222"]),
                   ("Body", ["hi"])] }
        {}).1.status = 500 := by
  refine ⟨⟨?_, ?_⟩, ?_⟩
  · exact ((@C3_verification_rejects_before_backend {}
      { enabled := true
        twilio := { validateSignature := true, authToken := "tok" } }
      { form := [("From", ["+15550001111"]), ("To", ["+15550002222"]),
                 ("Body", ["hi"])] }
      {}
      { provider := "twilio", accountId := "", messageId := ""
        fromAddr := "+15550001111", toAddr := "+15550002222"
        text := "hi" }
      rfl (by decide) (by decide) (by decide) (by decide)
      rfl).2 (by decide) (Or.inl (by decide))).2.1
  · exact ((@C3_verification_rejects_before_backend {}
      { enabled := true
        twilio := { validateSignature := true, authToken := "tok" } }
      { form := [("From", ["+15550001111"]), ("To", ["+15550002222"]),
                 ("Body", ["hi"])] }
      {}
      { provider := "twilio", accountId := "", messageId := ""
        fromAddr := "+15550001111", toAddr := "+15550002222"
        text := "hi" }
      rfl (by decide) (by decide) (by decide) (by decide)
      rfl).2 (by decide) (Or.inl (by decide))).2.2
  · exact ((@C3_verification_rejects_before_backend {}
      { enabled := true, twilio := { validateSignature := true } }
      { form := [("From", ["+15550001111"]), ("To", ["+15550002222"]),
                 ("Body", ["hi"])] }
      {}
      { provider := "twilio", accountId := "", messageId := ""
        fromAddr := "+15550001111", toAddr := "+15550002222"
        text := "hi" }
      rfl (by decide) (by decide) (by decide) (by decide)
      rfl).1 (by decide)).2.1

/-- C8: if the queued per-conversation work throws anywhere (command
handling, session resolution, backend invocation or binding persistence),
the handler catches it and still reports success: status 200, `ok`,
`sessionId` null, `createdSession` false, and the configured fallback reply
rendered in the response envelope. -/
theorem C8_exception_yields_fallback_success {env : SvcEnv}
    {cfg : SmsConfig} {req : WebhookRequest} {w w1 : World}
    {event : InboundEvent} {e : String}
    (henabled : cfg.enabled = true)
    (hprov : resolvedProviderName cfg = "twilio")
    (hparse : parseInbound req.form = .ok event)
    (hdest : isAllowedDestination cfg.twilio event.toAddr = true)
    (hsender : isAllowedSender cfg.twilio event.fromAddr = true)
    (hver : verifyRequest cfg.twilio env.hmacSha1B64 req.headers req.form
      (requestSignatureUrl env cfg req) = .ok)
    (hbody : queuedInboundWork env cfg "twilio" event
      (eventConversationKey event) w = (.error e, w1)) :
    handleInboundWebhook env cfg req w
      = ({ ok := true, status := 200, sessionId := none
           conversationKey := some (eventConversationKey event)
           createdSession := false
           response := some (buildReplyPayload
             (fallbackReplyMessages env cfg)) }, w1) := by
  rw [handle_reaches_queue henabled hprov hparse hdest hsender, hver]
  dsimp only
  rw [hbody]

/-- C8 witness: a backend that throws on `sendUserMessage`, so the queued
work fails mid-flight and the handler answers 200 with the fallback text. -/
theorem C8_exception_yields_fallback_success_witness :
    handleInboundWebhook
        { sendUserMessageOutcome := fun _ => .error "boom" }
        { enabled := true, maxReplyChars := 100 }
        { form := [("From", ["+15550001111"]), ("To", ["+15550002222"]),
                   ("Body", ["hello there"])] }
        {}
      = ({ ok := true, status := 200, sessionId := none
           conversationKey := some "twilio:default:+15550002222:+15550001111"
           createdSession := false
           response := some (buildReplyPayload (fallbackReplyMessages
             { sendUserMessageOutcome := fun _ => .error "boom" }
             { enabled := true, maxReplyChars := 100 })) },
         { sessions := [{ id := "ses-0" }], nextId := 1, createdCount := 1
           sendCount := 1 }) := by
  have h := @C8_exception_yields_fallback_success
    { sendUserMessageOutcome := fun _ => .error "boom" }
    { enabled := true, maxReplyChars := 100 }
    { form := [("From", ["+15550001111"]), ("To", ["+15550002222"]),
               ("Body", ["hello there"])] }
    {}
    { sessions := [{ id := "ses-0" }], nextId := 1, createdCount := 1
      sendCount := 1 }
    { provider := "twilio", accountId := "", messageId := ""
      fromAddr := "+15550001111", toAddr := "+15550002222"
      text := "hello there" }
    "boom"
    rfl (by decide) (by decide) (by decide) (by decide) rfl (by rfl)
  rw [h]
  rfl

/-! ### Claims C4 and C5: binding bookkeeping -/

theorem clearSession_id (s : Session) : (clearSession s).id = s.id := rfl

theorem sessionBound_clearSession {s : Session} {key : String}
    (hkey : key ≠ "") : SessionBound (clearSession s) key = false := by
  unfold SessionBound clearSession
  simp [Ne.symm hkey]

theorem boundFilter_le_of_pointwise {l : List Session}
    {h : Session → Session} {key : String}
    (hp : ∀ s ∈ l, SessionBound (h s) key = true → SessionBound s key = true) :
    ((l.map h).filter (fun s => SessionBound s key)).length
      ≤ (l.filter (fun s => SessionBound s key)).length := by
  induction l with
  | nil => simp
  | cons s t ih =>
    have iht := ih (fun x hx => hp x (List.mem_cons_of_mem _ hx))
    simp only [List.map_cons, List.filter_cons]
    by_cases hb : SessionBound (h s) key = true
    · rw [if_pos hb, if_pos (hp s (List.mem_cons_self _ _) hb)]
      simpa using Nat.succ_le_succ iht
    · rw [if_neg hb]
      by_cases hb2 : SessionBound s key = true
      · rw [if_pos hb2]
        exact le_trans iht (Nat.le_succ _)
      · rw [if_neg hb2]
        exact iht

theorem atMostOne_of_bound_id {l : List Session} {key : String} {i : String}
    (hnodup : (l.map Session.id).Nodup)
    (hall : ∀ s ∈ l, SessionBound s key = true → s.id = i) :
    (l.filter (fun s => SessionBound s key)).length ≤ 1 := by
  induction l with
  | nil => simp
  | cons s t ih =>
    simp only [List.map_cons, List.nodup_cons] at hnodup
    rw [List.filter_cons]
    by_cases hb : SessionBound s key = true
    · rw [if_pos hb]
      have hid : s.id = i := hall s (List.mem_cons_self _ _) hb
      have ht : t.filter (fun s => SessionBound s key) = [] := by
        rw [List.filter_eq_nil_iff]
        intro x hx hbx
        have hxid : x.id = i := hall x (List.mem_cons_of_mem _ hx) hbx
        exact hnodup.1 (by
          rw [hid, ← hxid]
          exact List.mem_map_of_mem Session.id hx)
      rw [ht]
      simp
    · rw [if_neg hb]
      exact ih hnodup.2 (fun x hx => hall x (List.mem_cons_of_mem _ hx))

theorem find?_id_nodup {l : List Session} {x : Session}
    (hnodup : (l.map Session.id).Nodup) (hx : x ∈ l) :
    List.find? (fun s => s.id = x.id) l = some x := by
  induction l with
  | nil => cases hx
  | cons y t ih =>
    simp only [List.map_cons, List.nodup_cons] at hnodup
    rcases List.mem_cons.mp hx with h | h
    · subst h
      rw [List.find?_cons_of_pos]
      simp
    · by_cases hy : y.id = x.id
      · exfalso
        apply hnodup.1
        rw [hy]
        exact List.mem_map_of_mem Session.id h
      · rw [List.find?_cons_of_neg t (by simp [hy])]
        exact ih hnodup.2 h

theorem getSession_id {w : World} {id : String} {cur : Session}
    (h : getSession w id = some cur) : cur.id = id := by
  have := List.find?_some h
  simpa using this

theorem getSession_mem {w : World} {id : String} {cur : Session}
    (h : getSession w id = some cur) : cur ∈ w.sessions :=
  List.mem_of_find?_eq_some h

theorem merge_inplace {w : World} {id : String}
    {p : SmsBinding → SmsBinding} {cur : Session}
    (hfind : getSession w id = some cur) :
    mergeSmsBinding w id p
      = { w with sessions := w.sessions.map fun s =>
          if s.id = id
          then { cur with sms := some (p (cur.sms.getD {})) } else s } := by
  unfold mergeSmsBinding
  simp only [hfind, Option.getD_some, Option.isSome_some, if_true]

theorem merge_append {w : World} {id : String} {p : SmsBinding → SmsBinding}
    (hfind : getSession w id = none) :
    mergeSmsBinding w id p
      = { w with sessions := w.sessions
          ++ [{ id := id, sms := some (p {}) }] } := by
  unfold mergeSmsBinding
  simp only [hfind, Option.getD_none, Option.isSome_none]
  rfl

theorem map_clear_id (l : List Session) (f : Session → Session)
    (hf : ∀ s, (f s).id = s.id) :
    (l.map f).map Session.id = l.map Session.id := by
  rw [List.map_map]
  exact List.map_congr_left fun s _ => hf s

theorem unbind_fold_chars (orig : List Session)
    (hnodup : (orig.map Session.id).Nodup) :
    ∀ (hs : List Session) (P : Session → Bool) (w : World),
      w.sessions = orig.map (fun s => if P s then clearSession s else s) →
      (∀ x ∈ hs, x ∈ orig ∧ P x = false) →
      (hs.map Session.id).Nodup →
      (∀ x ∈ hs, ∀ y ∈ orig, P y = true → y.id ≠ x.id) →
      hs.foldl (fun w s => mergeSmsBinding w s.id
          fun b => { b with conversationKey := "" }) w
        = { w with sessions := orig.map (fun s =>
            if P s || decide (s ∈ hs) then clearSession s else s) } := by
  intro hs
  induction hs with
  | nil =>
    intro P w hsess _ _ _
    simp only [List.foldl_nil]
    have h1 : (orig.map fun s =>
        if P s || decide (s ∈ ([] : List Session)) then clearSession s else s)
        = w.sessions := by
      rw [hsess]
      apply List.map_congr_left
      intro s _
      simp
    rw [h1]
  | cons x rest ih =>
    intro P w hsess hmem hnod hdisj
    obtain ⟨hxorig, hPx⟩ := hmem x (List.mem_cons_self _ _)
    have hfx : (if P x then clearSession x else x) = x := by
      rw [hPx]
      rfl
    have hids : (orig.map (fun s => if P s then clearSession s else s)).map
        Session.id = orig.map Session.id :=
      map_clear_id _ _ (fun s => by
        by_cases h : P s <;> simp [h, clearSession_id])
    have hfind : getSession w x.id = some x := by
      unfold getSession
      rw [hsess]
      exact find?_id_nodup (by rw [hids]; exact hnodup)
        (List.mem_map.mpr ⟨x, hxorig, hfx⟩)
    simp only [List.map_cons, List.nodup_cons] at hnod
    have hxid_rest : ∀ x' ∈ rest, x'.id ≠ x.id := by
      intro x' hx' h
      exact hnod.1 (h ▸ List.mem_map_of_mem Session.id hx')
    rw [List.foldl_cons, merge_inplace hfind]
    have hsess1 : (w.sessions.map fun s =>
        if s.id = x.id
        then { x with sms := some ((fun b => { b with conversationKey := "" })
          (x.sms.getD {})) } else s)
        = orig.map (fun s =>
            if P s || decide (s = x) then clearSession s else s) := by
      rw [hsess, List.map_map]
      apply List.map_congr_left
      intro s hsmem
      by_cases hid : s.id = x.id
      · have hsx : s = x := List.inj_on_of_nodup_map hnodup hsmem hxorig hid
        subst hsx
        simp [Function.comp_apply, hPx, clearSession]
      · have hsnex : s ≠ x := fun h => hid (by rw [h])
        simp only [Function.comp_apply]
        by_cases hP : P s
        · rw [if_pos hP, if_neg (by rw [clearSession_id]; exact hid),
            if_pos (by simp [hP])]
        · rw [if_neg hP, if_neg hid, if_neg (by simp [hP, hsnex])]
    have ihres := ih (fun s => P s || decide (s = x))
      { w with sessions := orig.map (fun s =>
          if P s || decide (s = x) then clearSession s else s) }
      rfl
      (fun x' hx' => ⟨(hmem x' (List.mem_cons_of_mem _ hx')).1, by
        have h1 : P x' = false := (hmem x' (List.mem_cons_of_mem _ hx')).2
        have h2 : x' ≠ x := fun h => hxid_rest x' hx' (by rw [h])
        simp [h1, h2]⟩)
      hnod.2
      (fun x' hx' y hy hPy => by
        rcases Bool.or_eq_true_iff.mp hPy with h | h
        · exact hdisj x' (List.mem_cons_of_mem _ hx') y hy h
        · have : y = x := of_decide_eq_true h
          subst this
          intro hcon
          exact hxid_rest x' hx' hcon.symm)
    rw [hsess1, ihres]
    have hmap : (orig.map fun s =>
        if (P s || decide (s = x)) || decide (s ∈ rest)
        then clearSession s else s)
        = orig.map fun s =>
          if P s || decide (s ∈ x :: rest) then clearSession s else s := by
      apply List.map_congr_left
      intro s _
      by_cases h1 : s = x <;> by_cases h2 : s ∈ rest <;>
        simp [h1, h2, List.mem_cons]
    rw [hmap]

theorem unbind_spec (w : World) (key keep : String)
    (hnodup : (w.sessions.map Session.id).Nodup) :
    unbindConversationKeyFromOtherSessions w key keep
      = { w with sessions := w.sessions.map fun s =>
          if s.id ≠ "" ∧ s.id ≠ keep ∧ SessionBound s key = true
          then clearSession s else s } := by
  unfold unbindConversationKeyFromOtherSessions listSessions
  have hsub : ((w.sessions.filter (fun s => s.id ≠ "")).filter
      (fun s => s.id ≠ keep && SessionBound s key)).Sublist w.sessions :=
    (List.filter_sublist _).trans (List.filter_sublist _)
  have hres := unbind_fold_chars w.sessions hnodup
    ((w.sessions.filter (fun s => s.id ≠ "")).filter
      (fun s => s.id ≠ keep && SessionBound s key))
    (fun _ => false) w
    (by
      have h1 : (w.sessions.map fun s =>
          if (fun (_ : Session) => false) s then clearSession s else s)
          = w.sessions := by
        simp
      exact h1.symm)
    (fun x hx => ⟨hsub.subset hx, rfl⟩)
    (List.Nodup.sublist (hsub.map Session.id) hnodup)
    (fun x _ y _ hPy => by cases hPy)
  rw [hres]
  have hmap : (w.sessions.map fun s =>
      if (fun (_ : Session) => false) s
          || decide (s ∈ (w.sessions.filter (fun s => s.id ≠ "")).filter
            (fun s => s.id ≠ keep && SessionBound s key))
      then clearSession s else s)
      = w.sessions.map fun s =>
        if s.id ≠ "" ∧ s.id ≠ keep ∧ SessionBound s key = true
        then clearSession s else s := by
    apply List.map_congr_left
    intro s hsmem
    have hmemiff : (s ∈ (w.sessions.filter (fun s => s.id ≠ "")).filter
        (fun s => s.id ≠ keep && SessionBound s key))
        ↔ (s.id ≠ "" ∧ s.id ≠ keep ∧ SessionBound s key = true) := by
      simp only [List.mem_filter, Bool.and_eq_true, decide_eq_true_eq]
      tauto
    by_cases h : s.id ≠ "" ∧ s.id ≠ keep ∧ SessionBound s key = true
    · rw [if_pos (by simp [hmemiff, h, hsmem]), if_pos h]
    · rw [if_neg (by intro hc; simp only [Bool.false_or, decide_eq_true_eq] at hc; exact h (hmemiff.mp hc)), if_neg h]
  rw [hmap]

/-! ### Claims C4 and C5: binding uniqueness and conversation identity -/

theorem string_append_left_cancel {x y z : String} (h : x ++ y = x ++ z) :
    y = z := by
  have hd := congrArg String.data h
  rw [String.data_append, String.data_append] at hd
  exact String.ext (List.append_cancel_left hd)

theorem mkSessionId_ne (n : Nat) : mkSessionId n ≠ "" := by
  intro h
  have hd := congrArg String.data h
  simp [mkSessionId, String.data_append] at hd

theorem createKey_ne (p a t f : String) :
    createSmsConversationKey p a t f ≠ "" := by
  intro h
  have hd := congrArg String.data h
  simp [createSmsConversationKey, String.data_append] at hd

theorem createKey_from_inj {p a t f1 f2 : String}
    (h : normalizeEndpoint f1 ≠ normalizeEndpoint f2) :
    createSmsConversationKey p a t f1 ≠ createSmsConversationKey p a t f2 := by
  intro he
  unfold createSmsConversationKey at he
  exact h (string_append_left_cancel he)

theorem sessionBound_key_unique {s : Session} {k1 k2 : String}
    (h1 : SessionBound s k1 = true) (h2 : SessionBound s k2 = true) :
    k1 = k2 := by
  unfold SessionBound at h1 h2
  cases hs : s.sms with
  | none => rw [hs] at h1; cases h1
  | some b =>
    rw [hs] at h1 h2
    simp only [decide_eq_true_eq] at h1 h2
    rw [← h1, ← h2]

theorem filter_len_le_one_unique {α : Type} {p : α → Bool} :
    ∀ {l : List α}, (l.filter p).length ≤ 1 →
      ∀ x ∈ l, p x = true → ∀ y ∈ l, p y = true → y = x := by
  intro l
  induction l with
  | nil => intro _ x hx; cases hx
  | cons z t ih =>
    intro hlen x hx hpx y hy hpy
    rw [List.filter_cons] at hlen
    by_cases hz : p z = true
    · rw [if_pos hz] at hlen
      have ht : t.filter p = [] :=
        List.length_eq_zero.mp (Nat.le_zero.mp (Nat.le_of_succ_le_succ hlen))
      have hnt : ∀ u ∈ t, p u = true → False := by
        intro u hu hpu
        have hmem : u ∈ t.filter p := List.mem_filter.mpr ⟨hu, hpu⟩
        rw [ht] at hmem
        cases hmem
      have hxz : x = z := by
        rcases List.mem_cons.mp hx with h | h
        · exact h
        · exact (hnt x h hpx).elim
      have hyz : y = z := by
        rcases List.mem_cons.mp hy with h | h
        · exact h
        · exact (hnt y h hpy).elim
      rw [hxz, hyz]
    · rw [if_neg hz] at hlen
      have hxt : x ∈ t := by
        rcases List.mem_cons.mp hx with h | h
        · exact absurd (h ▸ hpx) hz
        · exact h
      have hyt : y ∈ t := by
        rcases List.mem_cons.mp hy with h | h
        · exact absurd (h ▸ hpy) hz
        · exact h
      exact ih hlen x hxt hpx y hyt hpy

theorem findSession_some_spec {w : World} {key : String} {ex : Session}
    (h : findSessionForConversation w key = some ex) :
    ex ∈ w.sessions ∧ ex.id ≠ "" ∧ SessionBound ex key = true := by
  unfold findSessionForConversation listSessions at h
  have hmem := List.mem_of_find?_eq_some h
  have hp := List.find?_some h
  rw [List.mem_filter] at hmem
  exact ⟨hmem.1, by simpa using hmem.2, hp⟩

theorem findSession_none_spec {w : World} {key : String}
    (h : findSessionForConversation w key = none) :
    ∀ s ∈ w.sessions, s.id ≠ "" → SessionBound s key = false := by
  unfold findSessionForConversation listSessions at h
  intro s hs hid
  have hns := List.find?_eq_none.mp h s (List.mem_filter.mpr ⟨hs, by simpa⟩)
  simpa using hns

theorem findSession_bound_id {w : World} {key sid : String}
    (hall : ∀ s ∈ w.sessions, SessionBound s key = true → s.id = sid)
    (hex : ∃ s ∈ w.sessions, s.id = sid ∧ s.id ≠ "" ∧
      SessionBound s key = true) :
    ∃ x, findSessionForConversation w key = some x ∧ x.id = sid := by
  obtain ⟨s0, hs0mem, _, hs0ne, hs0b⟩ := hex
  cases hf : findSessionForConversation w key with
  | none =>
    have hfalse := findSession_none_spec hf s0 hs0mem hs0ne
    rw [hs0b] at hfalse
    cases hfalse
  | some x =>
    obtain ⟨hxmem, _, hxb⟩ := findSession_some_spec hf
    exact ⟨x, rfl, hall x hxmem hxb⟩

theorem getSession_of_mem_ids {w : World} {sid : String}
    (hnodup : (w.sessions.map Session.id).Nodup)
    (hmem : sid ∈ w.sessions.map Session.id) :
    ∃ cur, getSession w sid = some cur ∧ cur.id = sid := by
  obtain ⟨x, hx, hxid⟩ := List.mem_map.mp hmem
  refine ⟨x, ?_, hxid⟩
  unfold getSession
  rw [← hxid]
  exact find?_id_nodup hnodup hx

theorem wf_of_ids_eq {w w' : World}
    (h : w'.sessions.map Session.id = w.sessions.map Session.id)
    (hwf : WorldWF w) : WorldWF w' := by
  constructor
  · rw [h]; exact hwf.1
  · intro s hs
    have hsid : s.id ∈ w'.sessions.map Session.id := List.mem_map_of_mem _ hs
    rw [h] at hsid
    obtain ⟨t, ht, htid⟩ := List.mem_map.mp hsid
    rw [← htid]
    exact hwf.2 t ht

theorem atMostOne_glue {w w' : World} {key sid : String}
    (hinv : AtMostOneBinding w) (hkey : key ≠ "")
    (hnodup : (w'.sessions.map Session.id).Nodup)
    (hall : ∀ s ∈ w'.sessions, SessionBound s key = true → s.id = sid)
    (hle : ∀ key', key' ≠ "" → key' ≠ key →
      boundCount w' key' ≤ boundCount w key') :
    AtMostOneBinding w' := by
  intro key' hk'
  by_cases hkk : key' = key
  · subst hkk
    exact atMostOne_of_bound_id hnodup hall
  · exact le_trans (hle key' hk' hkk) (hinv key' hk')

theorem createSessionCall_spec {env : SvcEnv} {w : World} {id : String}
    {w1 : World} (h : createSessionCall env w = .ok (id, w1)) :
    id = mkSessionId w.nextId ∧ w1.nextId = w.nextId + 1 ∧
    w1.createdCount = w.createdCount + 1 ∧ w1.sendCount = w.sendCount ∧
    (w1.sessions = w.sessions ∧ id ∈ w.sessions.map Session.id ∨
      w1.sessions = w.sessions ++ [{ id := id }] ∧
        id ∉ w.sessions.map Session.id) := by
  unfold createSessionCall at h
  cases hout : env.createSessionOutcome w.nextId with
  | some e => rw [hout] at h; cases h
  | none =>
    rw [hout] at h
    simp only [Except.ok.injEq, Prod.mk.injEq] at h
    obtain ⟨hid, hw⟩ := h
    by_cases hf : (List.find? (fun s => s.id = mkSessionId w.nextId) w.sessions).isSome
    · have hfind : (getSession { w with nextId := w.nextId + 1, createdCount := w.createdCount + 1 } (mkSessionId w.nextId)).isSome = true := hf
      rw [if_pos hfind] at hw
      obtain ⟨cur, hcur⟩ := Option.isSome_iff_exists.mp hf
      refine ⟨hid.symm, by rw [← hw], by rw [← hw], by rw [← hw],
        Or.inl ⟨by rw [← hw], ?_⟩⟩
      rw [← hid]
      exact List.mem_map.mpr ⟨cur, List.mem_of_find?_eq_some hcur,
        by simpa using List.find?_some hcur⟩
    · have hnone : List.find? (fun s => s.id = mkSessionId w.nextId) w.sessions
          = none := Option.not_isSome_iff_eq_none.mp hf
      have hg : getSession { w with nextId := w.nextId + 1, createdCount := w.createdCount + 1 } (mkSessionId w.nextId) = none := hnone
      have hfind : (getSession { w with nextId := w.nextId + 1, createdCount := w.createdCount + 1 } (mkSessionId w.nextId)).isSome = false := by
        rw [hg]
        rfl
      rw [hfind] at hw
      simp only [Bool.false_eq_true, if_false] at hw
      refine ⟨hid.symm, by rw [← hw], by rw [← hw], by rw [← hw],
        Or.inr ⟨by rw [← hw, ← hid], ?_⟩⟩
      rw [← hid]
      intro hmem
      obtain ⟨x, hx, hxid⟩ := List.mem_map.mp hmem
      have hnone : List.find? (fun s => s.id = mkSessionId w.nextId) w.sessions
          = none := Option.not_isSome_iff_eq_none.mp hf
      have hcx := List.find?_eq_none.mp hnone x hx
      simp [hxid] at hcx

theorem createSessionCall_ok {env : SvcEnv} {w : World}
    (h : env.createSessionOutcome w.nextId = none) :
    ∃ id w1, createSessionCall env w = .ok (id, w1) := by
  unfold createSessionCall
  rw [h]
  exact ⟨_, _, rfl⟩

theorem ensureSession_spec {env : SvcEnv} {w : World} {key sid : String}
    {created : Bool} {w1 : World}
    (h : ensureSession env w key = .ok (sid, created, w1)) :
    sid ≠ "" ∧
    (w1.sessions = w.sessions ∧ sid ∈ w.sessions.map Session.id ∨
      w1.sessions = w.sessions ++ [{ id := sid }] ∧
        sid ∉ w.sessions.map Session.id) ∧
    w1.sendCount = w.sendCount ∧
    (created = false →
      w1 = w ∧ ∃ ex, findSessionForConversation w key = some ex ∧
        sid = ex.id) ∧
    (created = true →
      findSessionForConversation w key = none ∧ sid = mkSessionId w.nextId ∧
      w1.createdCount = w.createdCount + 1 ∧ w1.nextId = w.nextId + 1) := by
  unfold ensureSession at h
  cases hfd : findSessionForConversation w key with
  | some ex =>
    rw [hfd] at h
    simp only [] at h
    obtain ⟨hexmem, hexid, hexb⟩ := findSession_some_spec hfd
    rw [if_pos hexid] at h
    simp only [Except.ok.injEq, Prod.mk.injEq] at h
    obtain ⟨h1, h2, h3⟩ := h
    subst h1
    subst h3
    refine ⟨hexid, Or.inl ⟨rfl, List.mem_map_of_mem _ hexmem⟩, rfl,
      fun _ => ⟨rfl, ex, rfl, rfl⟩, fun hc => absurd h2 (by rw [hc]; simp)⟩
  | none =>
    rw [hfd] at h
    simp only [] at h
    cases hc : createSessionCall env w with
    | error e => rw [hc] at h; cases h
    | ok pr =>
      obtain ⟨cid, wc⟩ := pr
      rw [hc] at h
      simp only [Except.ok.injEq, Prod.mk.injEq] at h
      obtain ⟨h1, h2, h3⟩ := h
      subst h1
      subst h3
      obtain ⟨hid, hnext, hcc, hsc, hsess⟩ := createSessionCall_spec hc
      refine ⟨hid ▸ mkSessionId_ne w.nextId, hsess, hsc,
        fun hcf => absurd h2 (by rw [hcf]; simp),
        fun _ => ⟨rfl, hid, hcc, hnext⟩⟩

theorem ensureSession_ok {env : SvcEnv} {w : World} {key : String}
    (h : env.createSessionOutcome w.nextId = none) :
    ∃ sid created w1, ensureSession env w key = .ok (sid, created, w1) := by
  unfold ensureSession
  obtain ⟨id, w1, hc⟩ := createSessionCall_ok (w := w) h
  cases hfd : findSessionForConversation w key with
  | some ex =>
    by_cases hid : ex.id ≠ ""
    · exact ⟨ex.id, false, w, by simp only []; rw [if_pos hid]⟩
    · refine ⟨id, true, w1, ?_⟩
      simp only []
      rw [if_neg hid, hc]
  | none =>
    refine ⟨id, true, w1, ?_⟩
    simp only []
    rw [hc]

theorem wf_extend {w w1 : World} {sid : String} (hwf : WorldWF w)
    (hne : sid ≠ "")
    (hs : w1.sessions = w.sessions ∧ sid ∈ w.sessions.map Session.id ∨
      w1.sessions = w.sessions ++ [{ id := sid }] ∧
        sid ∉ w.sessions.map Session.id) :
    WorldWF w1 ∧ sid ∈ w1.sessions.map Session.id ∧
      ∀ key', boundCount w1 key' = boundCount w key' := by
  rcases hs with ⟨hs, hmem⟩ | ⟨hs, hnin⟩
  · refine ⟨⟨by rw [hs]; exact hwf.1, by rw [hs]; exact hwf.2⟩,
      by rw [hs]; exact hmem, fun key' => by unfold boundCount; rw [hs]⟩
  · constructor
    · constructor
      · rw [hs]
        simp only [List.map_append, List.map_cons, List.map_nil]
        rw [List.nodup_append]
        exact ⟨hwf.1, List.nodup_singleton _, by simpa using hnin⟩
      · intro s hsmem
        rw [hs] at hsmem
        rcases List.mem_append.mp hsmem with hm | hm
        · exact hwf.2 s hm
        · have : s = { id := sid } := by simpa using hm
          rw [this]
          exact hne
    · constructor
      · rw [hs]
        simp
      · intro key'
        unfold boundCount
        rw [hs, List.filter_append]
        have : List.filter (fun s => SessionBound s key')
            [({ id := sid } : Session)] = [] := by
          simp [SessionBound]
        rw [this, List.append_nil]

theorem merge_bind_spec {w : World} {sid key : String}
    {p : SmsBinding → SmsBinding} {cur : Session}
    (hfind : getSession w sid = some cur)
    (hpkey : ∀ b, (p b).conversationKey = key) :
    (mergeSmsBinding w sid p).sessions.map Session.id
        = w.sessions.map Session.id ∧
    (mergeSmsBinding w sid p).nextId = w.nextId ∧
    (mergeSmsBinding w sid p).createdCount = w.createdCount ∧
    (mergeSmsBinding w sid p).sendCount = w.sendCount ∧
    (∀ key', key' ≠ key →
      boundCount (mergeSmsBinding w sid p) key' ≤ boundCount w key') ∧
    ((∀ s ∈ w.sessions, SessionBound s key = true → s.id = sid) →
      ∀ s ∈ (mergeSmsBinding w sid p).sessions,
        SessionBound s key = true → s.id = sid) ∧
    (∃ s ∈ (mergeSmsBinding w sid p).sessions,
      s.id = sid ∧ SessionBound s key = true) ∧
    (∀ s ∈ (mergeSmsBinding w sid p).sessions, s ∈ w.sessions ∨ s.id = sid) := by
  have hcurid := getSession_id hfind
  have hcurmem := getSession_mem hfind
  rw [merge_inplace hfind]
  have hupdid : ({ cur with sms := some (p (cur.sms.getD {})) } : Session).id
      = sid := hcurid
  have hbupd : ∀ k, SessionBound
      { cur with sms := some (p (cur.sms.getD {})) } k = decide (key = k) := by
    intro k
    unfold SessionBound
    simp [hpkey]
  have hidf : ∀ s : Session,
      ((if s.id = sid then { cur with sms := some (p (cur.sms.getD {})) }
        else s) : Session).id = s.id := by
    intro s
    by_cases hs : s.id = sid
    · rw [if_pos hs, hs]
      exact hupdid
    · rw [if_neg hs]
  refine ⟨map_clear_id _ _ hidf, rfl, rfl, rfl, ?_, ?_, ?_, ?_⟩
  · intro key' hkk
    unfold boundCount
    refine boundFilter_le_of_pointwise ?_
    intro s hs hb
    by_cases hsid : s.id = sid
    · rw [if_pos hsid, hbupd] at hb
      exact absurd (of_decide_eq_true hb) (fun he => hkk he.symm)
    · rwa [if_neg hsid] at hb
  · intro hall s hs hb
    obtain ⟨t, ht, hts⟩ := List.mem_map.mp hs
    by_cases htid : t.id = sid
    · rw [if_pos htid] at hts
      rw [← hts]
      exact hupdid
    · rw [if_neg htid] at hts
      rw [← hts] at hb ⊢
      exact hall t ht hb
  · refine ⟨{ cur with sms := some (p (cur.sms.getD {})) }, ?_, hupdid, ?_⟩
    · refine List.mem_map.mpr ⟨cur, hcurmem, ?_⟩
      rw [if_pos hcurid]
    · rw [hbupd]
      simp
  · intro s hs
    obtain ⟨t, ht, hts⟩ := List.mem_map.mp hs
    by_cases htid : t.id = sid
    · rw [if_pos htid] at hts
      right
      rw [← hts]
      exact hupdid
    · rw [if_neg htid] at hts
      left
      rw [← hts]
      exact ht

theorem unbind_post {w : World} {key keep : String}
    (hnodup : (w.sessions.map Session.id).Nodup)
    (hids : ∀ s ∈ w.sessions, s.id ≠ "") (hkey : key ≠ "") :
    (unbindConversationKeyFromOtherSessions w key keep).sessions.map Session.id
        = w.sessions.map Session.id ∧
    (unbindConversationKeyFromOtherSessions w key keep).nextId = w.nextId ∧
    (unbindConversationKeyFromOtherSessions w key keep).createdCount
        = w.createdCount ∧
    (unbindConversationKeyFromOtherSessions w key keep).sendCount
        = w.sendCount ∧
    (∀ s ∈ (unbindConversationKeyFromOtherSessions w key keep).sessions,
      SessionBound s key = true → s.id = keep) ∧
    (∀ key', key' ≠ "" →
      boundCount (unbindConversationKeyFromOtherSessions w key keep) key'
        ≤ boundCount w key') := by
  rw [unbind_spec w key keep hnodup]
  have hidf : ∀ s : Session,
      ((if s.id ≠ "" ∧ s.id ≠ keep ∧ SessionBound s key = true
        then clearSession s else s) : Session).id = s.id := by
    intro s
    by_cases hc : s.id ≠ "" ∧ s.id ≠ keep ∧ SessionBound s key = true
    · rw [if_pos hc, clearSession_id]
    · rw [if_neg hc]
  refine ⟨map_clear_id _ _ hidf, rfl, rfl, rfl, ?_, ?_⟩
  · intro s hs hb
    obtain ⟨t, ht, hts⟩ := List.mem_map.mp hs
    by_cases hc : t.id ≠ "" ∧ t.id ≠ keep ∧ SessionBound t key = true
    · rw [if_pos hc] at hts
      rw [← hts] at hb
      rw [sessionBound_clearSession hkey] at hb
      cases hb
    · rw [if_neg hc] at hts
      rw [← hts] at hb ⊢
      push_neg at hc
      by_cases hk : t.id = keep
      · exact hk
      · exact absurd hb (by simp [hc (hids t ht) hk])
  · intro key' hk'
    unfold boundCount
    refine boundFilter_le_of_pointwise ?_
    intro s hs hb
    by_cases hc : s.id ≠ "" ∧ s.id ≠ keep ∧ SessionBound s key = true
    · rw [if_pos hc, sessionBound_clearSession hk'] at hb
      cases hb
    · rwa [if_neg hc] at hb

theorem queued_help_shape {env : SvcEnv} {cfg : SmsConfig} {pname : String}
    {event : InboundEvent} {key : String} {w : World}
    (hc : parseSharedChatCommand event.text = .help) :
    ∃ r, queuedInboundWork env cfg pname event key w = (.ok r, w) ∧
      r.createdSession = false := by
  unfold queuedInboundWork
  rw [hc]
  exact ⟨_, rfl, rfl⟩

theorem queued_session_shape {env : SvcEnv} {cfg : SmsConfig} {pname : String}
    {event : InboundEvent} {key : String} {w : World}
    (hc : parseSharedChatCommand event.text = .session) :
    ∃ r, queuedInboundWork env cfg pname event key w = (.ok r, w) ∧
      r.createdSession = false := by
  unfold queuedInboundWork
  rw [hc]
  exact ⟨_, rfl, rfl⟩

theorem queued_sessionNew_eq {env : SvcEnv} {cfg : SmsConfig} {pname : String}
    {event : InboundEvent} {key : String} {w : World} {title : String}
    (hc : parseSharedChatCommand event.text = .sessionNew title) :
    queuedInboundWork env cfg pname event key w =
      match createSessionCall env w with
      | .error e => (.error e, w)
      | .ok (createdId, w1) =>
        let w2 := unbindConversationKeyFromOtherSessions w1 key createdId
        let replyText := "Started new session: " ++ createdId
        let w3 := mergeSmsBinding w2 createdId fun _ =>
          { provider := "twilio"
            conversationKey := key
            accountId := event.accountId
            fromAddr := event.fromAddr
            toAddr := event.toAddr
            lastInboundMessageId := event.messageId
            lastInboundAt := env.nowIso
            lastInboundText := truncateStr event.text 500
            lastReplyAt := env.nowIso
            lastReplyText := truncateStr replyText 5000 }
        (.ok { ok := true, status := 200, sessionId := some createdId
               conversationKey := some key, createdSession := true
               response := some (buildReplyPayload
                 (toReplyMessages env cfg replyText)) }, w3) := by
  unfold queuedInboundWork
  rw [hc]

theorem queued_message_eq {env : SvcEnv} {cfg : SmsConfig} {pname : String}
    {event : InboundEvent} {key : String} {w : World}
    (hcmd : fallsThroughToMessage (parseSharedChatCommand event.text) = true) :
    queuedInboundWork env cfg pname event key w =
      match ensureSession env w key with
      | .error e => (.error e, w)
      | .ok (sessionId, created, w1) =>
        let systemPrompt :=
          buildSmsSystemPrompt cfg.defaultSystemPrompt event cfg.maxReplyChars
        match sendUserMessageCall env w1
            { sessionId := sessionId, text := event.text
              system := systemPrompt, channel := "sms:" ++ pname } with
        | (.error e, w2) => (.error e, w2)
        | (.ok assistantText, w2) =>
          let fallbackJoined :=
            String.intercalate "\n" (fallbackReplyMessages env cfg)
          let assistantReplyMessages := toReplyMessages env cfg
            (if assistantText = "" then fallbackJoined else assistantText)
          let assistantStored :=
            truncateStr (String.intercalate "\n" assistantReplyMessages) 5000
          let w3 := mergeSmsBinding w2 sessionId fun _ =>
            { provider := "twilio"
              conversationKey := key
              accountId := event.accountId
              fromAddr := event.fromAddr
              toAddr := event.toAddr
              lastInboundMessageId := event.messageId
              lastInboundAt := env.nowIso
              lastInboundText := truncateStr event.text 500
              lastReplyAt := env.nowIso
              lastReplyText := assistantStored }
          (.ok { ok := true, status := 200, sessionId := some sessionId
                 conversationKey := some key
                 createdSession := created
                 response := some (buildReplyPayload assistantReplyMessages) },
            w3) := by
  unfold queuedInboundWork
  cases hc : parseSharedChatCommand event.text with
  | help => rw [hc] at hcmd; simp [fallsThroughToMessage] at hcmd
  | session => rw [hc] at hcmd; simp [fallsThroughToMessage] at hcmd
  | sessionNew title => rw [hc] at hcmd; simp [fallsThroughToMessage] at hcmd
  | notCommand => rfl
  | update a => rfl
  | updateStatus => rfl

theorem message_no_throw {env : SvcEnv} {cfg : SmsConfig} {pname : String}
    {event : InboundEvent} {key : String} {w : World}
    (hcmd : fallsThroughToMessage (parseSharedChatCommand event.text) = true)
    (henv1 : ∀ n, env.createSessionOutcome n = none)
    (henv2 : ∀ a, ∃ t, env.sendUserMessageOutcome a = .ok t) :
    ∃ res w', queuedInboundWork env cfg pname event key w = (.ok res, w') := by
  rw [queued_message_eq hcmd]
  obtain ⟨sid, created, w1, hens⟩ := @ensureSession_ok env w key
    (henv1 w.nextId)
  rw [hens]
  obtain ⟨t, ht⟩ := henv2
    { sessionId := sid, text := event.text
      system := buildSmsSystemPrompt cfg.defaultSystemPrompt event
        cfg.maxReplyChars
      channel := "sms:" ++ pname }
  simp only [sendUserMessageCall, ht]
  exact ⟨_, _, rfl⟩

theorem sessionNew_post {env : SvcEnv} {cfg : SmsConfig} {pname : String}
    {event : InboundEvent} {key : String} {w : World} {title : String}
    {res : WebhookResult} {w' : World}
    (hc : parseSharedChatCommand event.text = .sessionNew title)
    (hkey : key ≠ "") (hwf : WorldWF w)
    (hrun : queuedInboundWork env cfg pname event key w = (.ok res, w')) :
    ∃ sid, res.sessionId = some sid ∧ res.createdSession = true ∧ sid ≠ "" ∧
      WorldWF w' ∧
      (∀ s ∈ w'.sessions, SessionBound s key = true → s.id = sid) ∧
      (∃ s ∈ w'.sessions, s.id = sid ∧ SessionBound s key = true) ∧
      (∀ key', key' ≠ "" → key' ≠ key →
        boundCount w' key' ≤ boundCount w key') := by
  rw [queued_sessionNew_eq hc] at hrun
  cases hcr : createSessionCall env w with
  | error e =>
    rw [hcr] at hrun
    simp only [Prod.mk.injEq] at hrun
    exact absurd hrun.1 (by simp)
  | ok pr =>
    obtain ⟨cid, w1⟩ := pr
    rw [hcr] at hrun
    simp only [Prod.mk.injEq, Except.ok.injEq] at hrun
    obtain ⟨hrec, hw'⟩ := hrun
    obtain ⟨hid, hnext, hcc, hsc, hsess⟩ := createSessionCall_spec hcr
    have hcidne : cid ≠ "" := hid ▸ mkSessionId_ne w.nextId
    obtain ⟨hwf1, hmem1, hbc1⟩ := wf_extend hwf hcidne hsess
    obtain ⟨hids2, hnx2, hcc2, hsc2, hall2, hle2⟩ :=
      @unbind_post w1 key cid hwf1.1 hwf1.2 hkey
    have hnodup2 : ((unbindConversationKeyFromOtherSessions w1 key
        cid).sessions.map Session.id).Nodup := by
      rw [hids2]; exact hwf1.1
    have hmem2 : cid ∈ (unbindConversationKeyFromOtherSessions w1 key
        cid).sessions.map Session.id := by
      rw [hids2]; exact hmem1
    obtain ⟨cur, hcur, hcurid⟩ := getSession_of_mem_ids hnodup2 hmem2
    have hpkey : ∀ b, ((fun (_ : SmsBinding) =>
        ({ provider := "twilio"
           conversationKey := key
           accountId := event.accountId
           fromAddr := event.fromAddr
           toAddr := event.toAddr
           lastInboundMessageId := event.messageId
           lastInboundAt := env.nowIso
           lastInboundText := truncateStr event.text 500
           lastReplyAt := env.nowIso
           lastReplyText := truncateStr ("Started new session: " ++ cid) 5000 }
          : SmsBinding)) b).conversationKey = key := fun _ => rfl
    obtain ⟨hids3, hnx3, hcc3, hsc3, hle3, halltrans, hex3, hmemchar⟩ :=
      merge_bind_spec hcur hpkey
    rw [hw'] at hids3 hle3 halltrans hex3
    refine ⟨cid, by rw [← hrec], by rw [← hrec], hcidne, ?_, ?_, hex3, ?_⟩
    · refine wf_of_ids_eq ?_ hwf1
      rw [hids3, hids2]
    · exact halltrans hall2
    · intro key' hk' hkk
      calc boundCount w' key' ≤ boundCount
            (unbindConversationKeyFromOtherSessions w1 key cid) key' :=
            hle3 key' hkk
        _ ≤ boundCount w1 key' := hle2 key' hk'
        _ = boundCount w key' := hbc1 key'

theorem message_post {env : SvcEnv} {cfg : SmsConfig} {pname : String}
    {event : InboundEvent} {key : String} {w : World} {res : WebhookResult}
    {w' : World}
    (hcmd : fallsThroughToMessage (parseSharedChatCommand event.text) = true)
    (hkey : key ≠ "") (hwf : WorldWF w) (hinv : AtMostOneBinding w)
    (hrun : queuedInboundWork env cfg pname event key w = (.ok res, w')) :
    ∃ sid, res.sessionId = some sid ∧ sid ≠ "" ∧
      WorldWF w' ∧
      (∀ s ∈ w'.sessions, SessionBound s key = true → s.id = sid) ∧
      (∃ s ∈ w'.sessions, s.id = sid ∧ SessionBound s key = true) ∧
      (∀ key', key' ≠ "" → key' ≠ key →
        boundCount w' key' ≤ boundCount w key') ∧
      (∀ s ∈ w'.sessions, s ∈ w.sessions ∨ s.id = sid) ∧
      (∀ ex, findSessionForConversation w key = some ex →
        sid = ex.id ∧ res.createdSession = false ∧
        w'.createdCount = w.createdCount ∧ w'.nextId = w.nextId) ∧
      (findSessionForConversation w key = none →
        sid = mkSessionId w.nextId ∧ res.createdSession = true ∧
        w'.createdCount = w.createdCount + 1 ∧ w'.nextId = w.nextId + 1) := by
  rw [queued_message_eq hcmd] at hrun
  cases hens : ensureSession env w key with
  | error e =>
    rw [hens] at hrun
    simp only [Prod.mk.injEq] at hrun
    exact absurd hrun.1 (by simp)
  | ok tr =>
    obtain ⟨sid, created, w1⟩ := tr
    rw [hens] at hrun
    simp only [sendUserMessageCall] at hrun
    cases hout : env.sendUserMessageOutcome
        { sessionId := sid, text := event.text
          system := buildSmsSystemPrompt cfg.defaultSystemPrompt event
            cfg.maxReplyChars
          channel := "sms:" ++ pname } with
    | error e =>
      rw [hout] at hrun
      simp only [Prod.mk.injEq] at hrun
      exact absurd hrun.1 (by simp)
    | ok assistantText =>
      rw [hout] at hrun
      simp only [Prod.mk.injEq, Except.ok.injEq] at hrun
      obtain ⟨hrec, hw'⟩ := hrun
      obtain ⟨hsidne, hsess, hsc, hcf, hct⟩ := ensureSession_spec hens
      obtain ⟨hwf1, hmem1, hbc1⟩ := wf_extend hwf hsidne hsess
      have hall1 : ∀ s ∈ w1.sessions, SessionBound s key = true →
          s.id = sid := by
        intro s hs hb
        cases hfd : findSessionForConversation w key with
        | some ex =>
          have hcreated : created = false := by
            cases hc : created
            · rfl
            · have := (hct hc).1
              rw [hfd] at this
              cases this
          obtain ⟨hw1w, ex', hfd', hsid'⟩ := hcf hcreated
          rw [hfd] at hfd'
          obtain ⟨hexmem, hexne, hexb⟩ := findSession_some_spec hfd
          have hex' : ex' = ex := by
            cases hfd'
            rfl
          rw [hw1w] at hs
          have := filter_len_le_one_unique (p := fun s => SessionBound s key)
            (hinv key hkey) ex hexmem hexb s hs hb
          rw [this, hsid', hex']
        | none =>
          rcases hsess with ⟨hse, _⟩ | ⟨hse, _⟩
          · rw [hse] at hs
            have := findSession_none_spec hfd s hs (hwf.2 s hs)
            rw [hb] at this
            cases this
          · rw [hse] at hs
            rcases List.mem_append.mp hs with hm | hm
            · have := findSession_none_spec hfd s hm (hwf.2 s hm)
              rw [hb] at this
              cases this
            · have hseq : s = { id := sid } := by simpa using hm
              rw [hseq] at hb
              simp [SessionBound] at hb
      have hw2sess : ({ w1 with sendCount := w1.sendCount + 1 }
          : World).sessions = w1.sessions := rfl
      have hnodup2 : (({ w1 with sendCount := w1.sendCount + 1 }
          : World).sessions.map Session.id).Nodup := hwf1.1
      have hmem2 : sid ∈ ({ w1 with sendCount := w1.sendCount + 1 }
          : World).sessions.map Session.id := hmem1
      obtain ⟨cur, hcur, hcurid⟩ := getSession_of_mem_ids hnodup2 hmem2
      have hpkey : ∀ b, ((fun (_ : SmsBinding) =>
          ({ provider := "twilio"
             conversationKey := key
             accountId := event.accountId
             fromAddr := event.fromAddr
             toAddr := event.toAddr
             lastInboundMessageId := event.messageId
             lastInboundAt := env.nowIso
             lastInboundText := truncateStr event.text 500
             lastReplyAt := env.nowIso
             lastReplyText := truncateStr (String.intercalate "\n"
               (toReplyMessages env cfg
                 (if assistantText = ""
                  then String.intercalate "\n" (fallbackReplyMessages env cfg)
                  else assistantText))) 5000 }
            : SmsBinding)) b).conversationKey = key := fun _ => rfl
      obtain ⟨hids3, hnx3, hcc3, hsc3, hle3, halltrans, hex3, hmemchar⟩ :=
        merge_bind_spec hcur hpkey
      rw [hw'] at hids3 hnx3 hcc3 hle3 halltrans hex3 hmemchar
      have hwf' : WorldWF w' := wf_of_ids_eq (by rw [hids3]) hwf1
      refine ⟨sid, by rw [← hrec], hsidne, hwf', halltrans hall1, hex3,
        ?_, ?_, ?_, ?_⟩
      · intro key' hk' hkk
        calc boundCount w' key' ≤ boundCount
              ({ w1 with sendCount := w1.sendCount + 1 } : World) key' :=
              hle3 key' hkk
          _ = boundCount w1 key' := rfl
          _ = boundCount w key' := hbc1 key'
      · intro s hs
        rcases hmemchar s hs with hm | hm
        · rcases hsess with ⟨hse, _⟩ | ⟨hse, _⟩
          · rw [hw2sess, hse] at hm
            exact Or.inl hm
          · rw [hw2sess, hse] at hm
            rcases List.mem_append.mp hm with hm2 | hm2
            · exact Or.inl hm2
            · right
              have hseq : s = { id := sid } := by simpa using hm2
              rw [hseq]
        · exact Or.inr hm
      · intro ex hfd
        have hcreated : created = false := by
          cases hc : created
          · rfl
          · have := (hct hc).1
            rw [hfd] at this
            cases this
        obtain ⟨hw1w, ex', hfd', hsid'⟩ := hcf hcreated
        rw [hfd] at hfd'
        have hex' : ex' = ex := by
          cases hfd'
          rfl
        refine ⟨by rw [hsid', hex'], by rw [← hrec, hcreated], ?_, ?_⟩
        · rw [hcc3, hw1w]
        · rw [hnx3, hw1w]
      · intro hfd
        have hcreated : created = true := by
          cases hc : created
          · obtain ⟨_, ex', hfd', _⟩ := hcf hc
            rw [hfd] at hfd'
            cases hfd'
          · rfl
        obtain ⟨_, hsid', hcc1, hnx1⟩ := hct hcreated
        refine ⟨hsid', by rw [← hrec, hcreated], ?_, ?_⟩
        · rw [hcc3]
          exact hcc1
        · rw [hnx3]
          exact hnx1

theorem queued_error_message_aux {env : SvcEnv} {cfg : SmsConfig}
    {pname : String} {event : InboundEvent} {key : String} {w : World}
    {e : String} {w' : World}
    (hcmd : fallsThroughToMessage (parseSharedChatCommand event.text) = true)
    (hwf : WorldWF w) (hinv : AtMostOneBinding w)
    (hrun : queuedInboundWork env cfg pname event key w = (.error e, w')) :
    WorldWF w' ∧ AtMostOneBinding w' := by
  rw [queued_message_eq hcmd] at hrun
  cases hens : ensureSession env w key with
  | error er =>
    rw [hens] at hrun
    simp only [Prod.mk.injEq] at hrun
    rw [← hrun.2]
    exact ⟨hwf, hinv⟩
  | ok tr =>
    obtain ⟨sid, created, w1⟩ := tr
    rw [hens] at hrun
    simp only [sendUserMessageCall] at hrun
    cases hout : env.sendUserMessageOutcome
        { sessionId := sid, text := event.text
          system := buildSmsSystemPrompt cfg.defaultSystemPrompt event
            cfg.maxReplyChars
          channel := "sms:" ++ pname } with
    | error er =>
      rw [hout] at hrun
      simp only [Prod.mk.injEq] at hrun
      obtain ⟨hsidne, hsess, _, _, _⟩ := ensureSession_spec hens
      obtain ⟨hwf1, _, hbc1⟩ := wf_extend hwf hsidne hsess
      rw [← hrun.2]
      refine ⟨⟨hwf1.1, hwf1.2⟩, ?_⟩
      intro k hk
      have hsame : boundCount ({ w1 with sendCount := w1.sendCount + 1 }
          : World) k = boundCount w1 k := rfl
      rw [hsame, hbc1]
      exact hinv k hk
    | ok t =>
      rw [hout] at hrun
      simp only [Prod.mk.injEq] at hrun
      exact absurd hrun.1 (by simp)

theorem queued_error_post {env : SvcEnv} {cfg : SmsConfig} {pname : String}
    {event : InboundEvent} {key : String} {w : World} {e : String}
    {w' : World}
    (hwf : WorldWF w) (hinv : AtMostOneBinding w)
    (hrun : queuedInboundWork env cfg pname event key w = (.error e, w')) :
    WorldWF w' ∧ AtMostOneBinding w' := by
  cases hc : parseSharedChatCommand event.text with
  | help =>
    obtain ⟨r, hq, _⟩ := @queued_help_shape env cfg pname _ key w hc
    rw [hq] at hrun
    simp only [Prod.mk.injEq] at hrun
    exact absurd hrun.1 (by simp)
  | session =>
    obtain ⟨r, hq, _⟩ := @queued_session_shape env cfg pname _ key w hc
    rw [hq] at hrun
    simp only [Prod.mk.injEq] at hrun
    exact absurd hrun.1 (by simp)
  | sessionNew title =>
    rw [queued_sessionNew_eq hc] at hrun
    cases hcr : createSessionCall env w with
    | error er =>
      rw [hcr] at hrun
      simp only [Prod.mk.injEq] at hrun
      rw [← hrun.2]
      exact ⟨hwf, hinv⟩
    | ok pr =>
      obtain ⟨cid, w1⟩ := pr
      rw [hcr] at hrun
      simp only [Prod.mk.injEq] at hrun
      exact absurd hrun.1 (by simp)
  | notCommand =>
    exact queued_error_message_aux (by rw [hc]; rfl) hwf hinv hrun
  | update a =>
    exact queued_error_message_aux (by rw [hc]; rfl) hwf hinv hrun
  | updateStatus =>
    exact queued_error_message_aux (by rw [hc]; rfl) hwf hinv hrun

theorem eventKey_ne (event : InboundEvent) :
    eventConversationKey event ≠ "" :=
  createKey_ne _ _ _ _

theorem handle_cases (env : SvcEnv) (cfg : SmsConfig) (req : WebhookRequest)
    (w : World) :
    ((handleInboundWebhook env cfg req w).2 = w ∨
      ∃ event e, parseInbound req.form = .ok event ∧
        queuedInboundWork env cfg "twilio" event (eventConversationKey event) w
          = (.error e, (handleInboundWebhook env cfg req w).2)) ∧
      (handleInboundWebhook env cfg req w).1.createdSession = false
    ∨ ∃ event res,
        parseInbound req.form = .ok event ∧
        queuedInboundWork env cfg "twilio" event (eventConversationKey event) w
          = (.ok res, (handleInboundWebhook env cfg req w).2) ∧
        (handleInboundWebhook env cfg req w).1 = res := by
  cases hen : cfg.enabled with
  | false =>
    refine Or.inl ⟨Or.inl ?_, ?_⟩ <;> simp [handleInboundWebhook, hen]
  | true =>
    by_cases hprov : resolvedProviderName cfg = "twilio"
    case neg =>
      refine Or.inl ⟨Or.inl ?_, ?_⟩ <;> simp [handleInboundWebhook, hen, hprov]
    case pos =>
      cases hp : parseInbound req.form with
      | reject st er =>
        refine Or.inl ⟨Or.inl ?_, ?_⟩ <;>
          simp [handleInboundWebhook, hen, hprov, hp]
      | ok event =>
        cases hdest : isAllowedDestination cfg.twilio event.toAddr with
        | false =>
          refine Or.inl ⟨Or.inl ?_, ?_⟩ <;>
            simp [handleInboundWebhook, hen, hprov, hp, hdest]
        | true =>
          cases hsender : isAllowedSender cfg.twilio event.fromAddr with
          | false =>
            refine Or.inl ⟨Or.inl ?_, ?_⟩ <;>
              simp [handleInboundWebhook, hen, hprov, hp, hdest, hsender]
          | true =>
            rw [handle_reaches_queue hen hprov hp hdest hsender]
            cases hv : verifyRequest cfg.twilio env.hmacSha1B64 req.headers
                req.form (requestSignatureUrl env cfg req) with
            | reject st er =>
              exact Or.inl ⟨Or.inl rfl, rfl⟩
            | ok =>
              cases hq : queuedInboundWork env cfg "twilio" event
                  (eventConversationKey event) w with
              | mk exc wq =>
                cases exc with
                | error e =>
                  exact Or.inl ⟨Or.inr ⟨event, e, rfl, hq⟩, rfl⟩
                | ok res =>
                  exact Or.inr ⟨event, res, rfl, hq, rfl⟩

/-- **C4**: starting from a store holding at most one record per non-empty
conversation key (with one record per nonempty id), any completed
`handleInboundWebhook` call preserves that uniqueness; and when the inbound
text is a `/session-new` command that completes with `createdSession`, every
stored record other than the returned session has no binding for the
event's conversation key, while the returned session is bound to it. -/
theorem C4_binding_uniqueness {env : SvcEnv} {cfg : SmsConfig}
    {req : WebhookRequest} {w : World} {result : WebhookResult} {w' : World}
    (hwf : WorldWF w) (hinv : AtMostOneBinding w)
    (hrun : handleInboundWebhook env cfg req w = (result, w')) :
    AtMostOneBinding w' ∧
    (∀ event title, parseInbound req.form = .ok event →
      parseSharedChatCommand event.text = .sessionNew title →
      result.createdSession = true →
      (∀ s ∈ w'.sessions, some s.id ≠ result.sessionId →
        SessionBound s (eventConversationKey event) = false) ∧
      (∃ s ∈ w'.sessions, some s.id = result.sessionId ∧
        SessionBound s (eventConversationKey event) = true)) := by
  have hc := handle_cases env cfg req w
  rw [hrun] at hc
  simp only [] at hc
  rcases hc with ⟨hcase, hcreated⟩ | ⟨event, res, hp, hq, hres⟩
  · constructor
    · rcases hcase with hsame | ⟨event, e, hp, hq⟩
      · rw [hsame]
        exact hinv
      · exact (queued_error_post hwf hinv hq).2
    · intro event title hp' hcmd' hcr
      rw [hcreated] at hcr
      cases hcr
  · subst hres
    cases hcmd : parseSharedChatCommand event.text with
    | help =>
      obtain ⟨r, hq2, hrf⟩ := @queued_help_shape env cfg "twilio" _
        (eventConversationKey event) w hcmd
      rw [hq2] at hq
      simp only [Prod.mk.injEq, Except.ok.injEq] at hq
      constructor
      · rw [← hq.2]
        exact hinv
      · intro event' title hp' hcmd' hcr
        rw [hp] at hp'
        injection hp' with he
        subst he
        rw [hcmd] at hcmd'
        cases hcmd'
    | session =>
      obtain ⟨r, hq2, hrf⟩ := @queued_session_shape env cfg "twilio" _
        (eventConversationKey event) w hcmd
      rw [hq2] at hq
      simp only [Prod.mk.injEq, Except.ok.injEq] at hq
      constructor
      · rw [← hq.2]
        exact hinv
      · intro event' title hp' hcmd' hcr
        rw [hp] at hp'
        injection hp' with he
        subst he
        rw [hcmd] at hcmd'
        cases hcmd'
    | sessionNew title0 =>
      obtain ⟨sid, hsid, hcrt, hsidne, hwf', hall, hex, hle⟩ :=
        sessionNew_post hcmd (eventKey_ne event) hwf hq
      constructor
      · exact atMostOne_glue hinv (eventKey_ne event) hwf'.1 hall hle
      · intro event' title hp' hcmd' hcr
        rw [hp] at hp'
        injection hp' with he
        subst he
        constructor
        · intro s hs hne
          rw [hsid] at hne
          cases hb : SessionBound s (eventConversationKey event) with
          | false => rfl
          | true => exact absurd (congrArg some (hall s hs hb)) hne
        · obtain ⟨s, hsmem, hsidq, hsb⟩ := hex
          refine ⟨s, hsmem, ?_, hsb⟩
          rw [hsid, hsidq]
    | notCommand =>
      obtain ⟨sid, hsid, hsidne, hwf', hall, hex, hle, hmemchar, hfound,
          hnonef⟩ := message_post (by rw [hcmd]; rfl) (eventKey_ne event)
        hwf hinv hq
      constructor
      · exact atMostOne_glue hinv (eventKey_ne event) hwf'.1 hall hle
      · intro event' title hp' hcmd' hcr
        rw [hp] at hp'
        injection hp' with he
        subst he
        rw [hcmd] at hcmd'
        cases hcmd'
    | update a =>
      obtain ⟨sid, hsid, hsidne, hwf', hall, hex, hle, hmemchar, hfound,
          hnonef⟩ := message_post (by rw [hcmd]; rfl) (eventKey_ne event)
        hwf hinv hq
      constructor
      · exact atMostOne_glue hinv (eventKey_ne event) hwf'.1 hall hle
      · intro event' title hp' hcmd' hcr
        rw [hp] at hp'
        injection hp' with he
        subst he
        rw [hcmd] at hcmd'
        cases hcmd'
    | updateStatus =>
      obtain ⟨sid, hsid, hsidne, hwf', hall, hex, hle, hmemchar, hfound,
          hnonef⟩ := message_post (by rw [hcmd]; rfl) (eventKey_ne event)
        hwf hinv hq
      constructor
      · exact atMostOne_glue hinv (eventKey_ne event) hwf'.1 hall hle
      · intro event' title hp' hcmd' hcr
        rw [hp] at hp'
        injection hp' with he
        subst he
        rw [hcmd] at hcmd'
        cases hcmd'

/-- Witness for C4: a concrete `/session-new` webhook processed from the
empty store. -/
theorem C4_binding_uniqueness_witness :
    AtMostOneBinding (handleInboundWebhook {} { enabled := true }
      { form := [("From", ["+15550001111"]), ("To", ["+15550002222"]),
                 ("Body", ["/session-new"])] } {}).2 ∧
    (∀ event title, parseInbound [("From", ["+15550001111"]),
        ("To", ["+15550002222"]), ("Body", ["/session-new"])]
          = .ok event →
      parseSharedChatCommand event.text = .sessionNew title →
      (handleInboundWebhook {} { enabled := true }
        { form := [("From", ["+15550001111"]), ("To", ["+15550002222"]),
                   ("Body", ["/session-new"])] } {}).1.createdSession = true →
      (∀ s ∈ (handleInboundWebhook {} { enabled := true }
          { form := [("From", ["+15550001111"]), ("To", ["+15550002222"]),
                     ("Body", ["/session-new"])] } {}).2.sessions,
        some s.id ≠ (handleInboundWebhook {} { enabled := true }
          { form := [("From", ["+15550001111"]), ("To", ["+15550002222"]),
                     ("Body", ["/session-new"])] } {}).1.sessionId →
        SessionBound s (eventConversationKey event) = false) ∧
      (∃ s ∈ (handleInboundWebhook {} { enabled := true }
          { form := [("From", ["+15550001111"]), ("To", ["+15550002222"]),
                     ("Body", ["/session-new"])] } {}).2.sessions,
        some s.id = (handleInboundWebhook {} { enabled := true }
          { form := [("From", ["+15550001111"]), ("To", ["+15550002222"]),
                     ("Body", ["/session-new"])] } {}).1.sessionId ∧
        SessionBound s (eventConversationKey event) = true)) := by
  have h := @C4_binding_uniqueness {} { enabled := true }
    { form := [("From", ["+15550001111"]), ("To", ["+15550002222"]),
               ("Body", ["/session-new"])] } {} _ _
    ⟨List.nodup_nil, by simp⟩ (fun _ _ => Nat.zero_le 1) rfl
  exact h

theorem message_webhook_run {env : SvcEnv} {cfg : SmsConfig}
    {req : WebhookRequest} {w : World} {event : InboundEvent}
    {r : WebhookResult} {w1 : World}
    (hen : cfg.enabled = true) (hprov : resolvedProviderName cfg = "twilio")
    (hp : parseInbound req.form = .ok event)
    (hdest : isAllowedDestination cfg.twilio event.toAddr = true)
    (hsender : isAllowedSender cfg.twilio event.fromAddr = true)
    (hv : verifyRequest cfg.twilio env.hmacSha1B64 req.headers req.form
      (requestSignatureUrl env cfg req) = .ok)
    (hfall : fallsThroughToMessage (parseSharedChatCommand event.text) = true)
    (henv1 : ∀ n, env.createSessionOutcome n = none)
    (henv2 : ∀ a, ∃ t, env.sendUserMessageOutcome a = .ok t)
    (hwf : WorldWF w) (hinv : AtMostOneBinding w)
    (hrun : handleInboundWebhook env cfg req w = (r, w1)) :
    ∃ sid, r.sessionId = some sid ∧ sid ≠ "" ∧
      WorldWF w1 ∧ AtMostOneBinding w1 ∧
      (∀ s ∈ w1.sessions,
        SessionBound s (eventConversationKey event) = true → s.id = sid) ∧
      (∃ s ∈ w1.sessions, s.id = sid ∧
        SessionBound s (eventConversationKey event) = true) ∧
      (∀ s ∈ w1.sessions, s ∈ w.sessions ∨ s.id = sid) ∧
      (∀ ex, findSessionForConversation w (eventConversationKey event)
          = some ex → sid = ex.id ∧ r.createdSession = false ∧
        w1.createdCount = w.createdCount ∧ w1.nextId = w.nextId) ∧
      (findSessionForConversation w (eventConversationKey event) = none →
        sid = mkSessionId w.nextId ∧ r.createdSession = true ∧
        w1.createdCount = w.createdCount + 1 ∧ w1.nextId = w.nextId + 1) := by
  rw [handle_reaches_queue hen hprov hp hdest hsender, hv] at hrun
  obtain ⟨res0, w0, hq⟩ := @message_no_throw env cfg "twilio" _
    (eventConversationKey event) w hfall henv1 henv2
  rw [hq] at hrun
  simp only [Prod.mk.injEq] at hrun
  obtain ⟨hr, hw1⟩ := hrun
  subst hr
  subst hw1
  obtain ⟨sid, hsid, hsidne, hwf', hall, hex, hle, hmemchar, hfound,
    hnonef⟩ := message_post hfall (eventKey_ne event) hwf hinv hq
  exact ⟨sid, hsid, hsidne, hwf',
    atMostOne_glue hinv (eventKey_ne event) hwf'.1 hall hle,
    hall, hex, hmemchar, hfound, hnonef⟩

/-- **C5**: conversation identity.  (a) Keys built from the same provider,
account and destination but differently-normalized senders differ.  (b) Under
a non-throwing backend, processing a second inbound event carrying the same
`(accountId, to, from)` tuple through the plain message path resolves to the
same session id as the first call and creates no conversation (and the
created-conversation counter is unchanged).  (c) From a fresh store, two
inbound events differing in normalized `from` yield distinct session ids. -/
theorem C5_conversation_identity :
    (∀ p a t f1 f2, normalizeEndpoint f1 ≠ normalizeEndpoint f2 →
      createSmsConversationKey p a t f1 ≠ createSmsConversationKey p a t f2) ∧
    (∀ (env : SvcEnv) (cfg : SmsConfig) (req1 req2 : WebhookRequest)
        (w : World) (e1 e2 : InboundEvent) (r1 : WebhookResult) (w1 : World)
        (r2 : WebhookResult) (w2 : World),
      cfg.enabled = true → resolvedProviderName cfg = "twilio" →
      parseInbound req1.form = .ok e1 → parseInbound req2.form = .ok e2 →
      isAllowedDestination cfg.twilio e1.toAddr = true →
      isAllowedSender cfg.twilio e1.fromAddr = true →
      isAllowedDestination cfg.twilio e2.toAddr = true →
      isAllowedSender cfg.twilio e2.fromAddr = true →
      verifyRequest cfg.twilio env.hmacSha1B64 req1.headers req1.form
        (requestSignatureUrl env cfg req1) = .ok →
      verifyRequest cfg.twilio env.hmacSha1B64 req2.headers req2.form
        (requestSignatureUrl env cfg req2) = .ok →
      fallsThroughToMessage (parseSharedChatCommand e1.text) = true →
      fallsThroughToMessage (parseSharedChatCommand e2.text) = true →
      e2.accountId = e1.accountId → e2.toAddr = e1.toAddr →
      e2.fromAddr = e1.fromAddr →
      (∀ n, env.createSessionOutcome n = none) →
      (∀ a, ∃ t, env.sendUserMessageOutcome a = .ok t) →
      WorldWF w → AtMostOneBinding w →
      handleInboundWebhook env cfg req1 w = (r1, w1) →
      handleInboundWebhook env cfg req2 w1 = (r2, w2) →
      (∃ sid, r1.sessionId = some sid ∧ r2.sessionId = some sid) ∧
      r2.createdSession = false ∧ w2.createdCount = w1.createdCount) ∧
    (∀ (env : SvcEnv) (cfg : SmsConfig) (req1 req2 : WebhookRequest)
        (e1 e2 : InboundEvent) (r1 : WebhookResult) (w1 : World)
        (r2 : WebhookResult) (w2 : World),
      cfg.enabled = true → resolvedProviderName cfg = "twilio" →
      parseInbound req1.form = .ok e1 → parseInbound req2.form = .ok e2 →
      isAllowedDestination cfg.twilio e1.toAddr = true →
      isAllowedSender cfg.twilio e1.fromAddr = true →
      isAllowedDestination cfg.twilio e2.toAddr = true →
      isAllowedSender cfg.twilio e2.fromAddr = true →
      verifyRequest cfg.twilio env.hmacSha1B64 req1.headers req1.form
        (requestSignatureUrl env cfg req1) = .ok →
      verifyRequest cfg.twilio env.hmacSha1B64 req2.headers req2.form
        (requestSignatureUrl env cfg req2) = .ok →
      fallsThroughToMessage (parseSharedChatCommand e1.text) = true →
      fallsThroughToMessage (parseSharedChatCommand e2.text) = true →
      e2.accountId = e1.accountId → e2.toAddr = e1.toAddr →
      normalizeEndpoint e2.fromAddr ≠ normalizeEndpoint e1.fromAddr →
      (∀ n, env.createSessionOutcome n = none) →
      (∀ a, ∃ t, env.sendUserMessageOutcome a = .ok t) →
      handleInboundWebhook env cfg req1 {} = (r1, w1) →
      handleInboundWebhook env cfg req2 w1 = (r2, w2) →
      ∃ sid1 sid2, r1.sessionId = some sid1 ∧ r2.sessionId = some sid2 ∧
        sid1 ≠ sid2) := by
  refine ⟨fun p a t f1 f2 h => createKey_from_inj h, ?_, ?_⟩
  · intro env cfg req1 req2 w e1 e2 r1 w1 r2 w2 hen hprov hp1 hp2 hd1 hs1
      hd2 hs2 hv1 hv2 hf1 hf2 hacc hto hfrom henv1 henv2 hwf hinv hrun1 hrun2
    have hkeyeq : eventConversationKey e2 = eventConversationKey e1 := by
      unfold eventConversationKey
      rw [hacc, hto, hfrom]
    obtain ⟨sid1, hsid1, hsid1ne, hwf1, hinv1, hall1, hex1, hmem1, hfound1,
      hnone1⟩ := message_webhook_run hen hprov hp1 hd1 hs1 hv1 hf1 henv1
        henv2 hwf hinv hrun1
    obtain ⟨x, hfx, hxid⟩ := findSession_bound_id hall1 (by
      obtain ⟨s, hsmem, hsidq, hsb⟩ := hex1
      exact ⟨s, hsmem, hsidq, by rw [hsidq]; exact hsid1ne, hsb⟩)
    obtain ⟨sid2, hsid2, hsid2ne, hwf2, hinv2, hall2, hex2, hmem2, hfound2,
      hnone2⟩ := message_webhook_run hen hprov hp2 hd2 hs2 hv2 hf2 henv1
        henv2 hwf1 hinv1 hrun2
    have hfx2 : findSessionForConversation w1 (eventConversationKey e2)
        = some x := by
      rw [hkeyeq]
      exact hfx
    obtain ⟨hsid2eq, hcr2, hcc2, _⟩ := hfound2 x hfx2
    refine ⟨⟨sid1, hsid1, ?_⟩, hcr2, hcc2⟩
    rw [hsid2, hsid2eq, hxid]
  · intro env cfg req1 req2 e1 e2 r1 w1 r2 w2 hen hprov hp1 hp2 hd1 hs1 hd2
      hs2 hv1 hv2 hf1 hf2 hacc hto hfrom henv1 henv2 hrun1 hrun2
    have hwf0 : WorldWF ({} : World) := ⟨List.nodup_nil, by simp⟩
    have hinv0 : AtMostOneBinding ({} : World) := fun _ _ => Nat.zero_le 1
    have hkeyne : eventConversationKey e2 ≠ eventConversationKey e1 := by
      unfold eventConversationKey
      rw [hacc, hto]
      exact createKey_from_inj hfrom
    obtain ⟨sid1, hsid1, hsid1ne, hwf1, hinv1, hall1, hex1, hmem1, hfound1,
      hnone1⟩ := message_webhook_run hen hprov hp1 hd1 hs1 hv1 hf1 henv1
        henv2 hwf0 hinv0 hrun1
    obtain ⟨hsid1eq, _, _, hnx1⟩ := hnone1 rfl
    obtain ⟨sid2, hsid2, hsid2ne, hwf2, hinv2, hall2, hex2, hmem2, hfound2,
      hnone2⟩ := message_webhook_run hen hprov hp2 hd2 hs2 hv2 hf2 henv1
        henv2 hwf1 hinv1 hrun2
    have hfind2 : findSessionForConversation w1 (eventConversationKey e2)
        = none := by
      cases hf : findSessionForConversation w1 (eventConversationKey e2) with
      | none => rfl
      | some x =>
        obtain ⟨hxmem, hxne, hxb⟩ := findSession_some_spec hf
        rcases hmem1 x hxmem with hm | hm
        · simp at hm
        · obtain ⟨s1, hs1mem, hs1id, hs1b⟩ := hex1
          have hxeq : x = s1 := List.inj_on_of_nodup_map hwf1.1 hxmem hs1mem
            (by rw [hm, hs1id])
          rw [hxeq] at hxb
          exact (hkeyne (sessionBound_key_unique hxb hs1b)).elim
    obtain ⟨hsid2eq, _, _, _⟩ := hnone2 hfind2
    refine ⟨sid1, sid2, hsid1, hsid2, ?_⟩
    rw [hsid1eq, hsid2eq, hnx1]
    decide

/-- Witness for C5: two concrete webhooks from the same sender resolve to
one session; webhooks from two senders started on a fresh store get
distinct sessions. -/
theorem C5_conversation_identity_witness :
    (createSmsConversationKey "twilio" "default" "+15550002222" "A"
      ≠ createSmsConversationKey "twilio" "default" "+15550002222" "B") ∧
    ((∃ sid,
      (handleInboundWebhook {} { enabled := true }
        { form := [("From", ["+15550001111"]), ("To", ["+15550002222"])] }
        {}).1.sessionId = some sid ∧
      (handleInboundWebhook {} { enabled := true }
        { form := [("From", ["+15550001111"]), ("To", ["+15550002222"])] }
        (handleInboundWebhook {} { enabled := true }
          { form := [("From", ["+15550001111"]), ("To", ["+15550002222"])] }
          {}).2).1.sessionId = some sid) ∧
      (handleInboundWebhook {} { enabled := true }
        { form := [("From", ["+15550001111"]), ("To", ["+15550002222"])] }
        (handleInboundWebhook {} { enabled := true }
          { form := [("From", ["+15550001111"]), ("To", ["+15550002222"])] }
          {}).2).1.createdSession = false ∧
      (handleInboundWebhook {} { enabled := true }
        { form := [("From", ["+15550001111"]), ("To", ["+15550002222"])] }
        (handleInboundWebhook {} { enabled := true }
          { form := [("From", ["+15550001111"]), ("To", ["+15550002222"])] }
          {}).2).2.createdCount =
        (handleInboundWebhook {} { enabled := true }
          { form := [("From", ["+15550001111"]), ("To", ["+15550002222"])] }
          {}).2.createdCount) ∧
    (∃ sid1 sid2,
      (handleInboundWebhook {} { enabled := true }
        { form := [("From", ["+15550001111"]), ("To", ["+15550002222"])] }
        {}).1.sessionId = some sid1 ∧
      (handleInboundWebhook {} { enabled := true }
        { form := [("From", ["+15550009999"]), ("To", ["+15550002222"])] }
        (handleInboundWebhook {} { enabled := true }
          { form := [("From", ["+15550001111"]), ("To", ["+15550002222"])] }
          {}).2).1.sessionId = some sid2 ∧
      sid1 ≠ sid2) := by
  refine ⟨C5_conversation_identity.1 "twilio" "default" "+15550002222"
    "A" "B" (by decide), ?_, ?_⟩
  · exact C5_conversation_identity.2.1 {} { enabled := true }
      { form := [("From", ["+15550001111"]), ("To", ["+15550002222"])] }
      { form := [("From", ["+15550001111"]), ("To", ["+15550002222"])] }
      {}
      { provider := "twilio", accountId := "", messageId := ""
        fromAddr := "+15550001111", toAddr := "+15550002222", text := "" }
      { provider := "twilio", accountId := "", messageId := ""
        fromAddr := "+15550001111", toAddr := "+15550002222", text := "" }
      _ _ _ _
      rfl rfl rfl rfl rfl rfl rfl rfl rfl rfl rfl rfl rfl rfl rfl
      (fun _ => rfl) (fun _ => ⟨"", rfl⟩)
      ⟨List.nodup_nil, by simp⟩ (fun _ _ => Nat.zero_le 1) rfl rfl
  · exact C5_conversation_identity.2.2 {} { enabled := true }
      { form := [("From", ["+15550001111"]), ("To", ["+15550002222"])] }
      { form := [("From", ["+15550009999"]), ("To", ["+15550002222"])] }
      { provider := "twilio", accountId := "", messageId := ""
        fromAddr := "+15550001111", toAddr := "+15550002222", text := "" }
      { provider := "twilio", accountId := "", messageId := ""
        fromAddr := "+15550009999", toAddr := "+15550002222", text := "" }
      _ _ _ _
      rfl rfl rfl rfl rfl rfl rfl rfl rfl rfl rfl rfl rfl rfl
      (by decide) (fun _ => rfl) (fun _ => ⟨"", rfl⟩) rfl rfl

end AgentPA
